import Mathlib

/-!
Verification of the data-oriented scene graph and GPU-driven rendering core:
flat hierarchy arrays, depth-ordered dirty-transform propagation, topology
edit operations (delete / merge), indirect draw-command assembly and the
two-phase frustum-culling test.

Transforms are modelled by an arbitrary type `M` carrying a multiplication
and an identity element (the source only ever multiplies 4x4 matrices and
assigns the identity matrix); array indices are `Int` as in the source
(`-1` denotes "none").  Recursive traversals of child/sibling chains are
given explicit fuel; every theorem that needs termination carries a
validity hypothesis under which the fuel is sufficient.
-/

namespace VkScene

/-- Hierarchy record, one per node (shared/Scene/Scene.h); C++ default member
initializers are `-1` for the four references and `0` for `level`. -/
structure Hierarchy where
  parent : Int := -1
  firstChild : Int := -1
  nextSibling : Int := -1
  lastSibling : Int := -1
  level : Int := 0
  deriving DecidableEq

/-- The `Scene` container (shared/Scene/Scene.h): flat parallel arrays plus
sparse node maps (modelled as association lists in iteration order) and the
per-level changed lists. -/
structure Scene (M : Type) where
  localTransform : List M := []
  globalTransform : List M := []
  hierarchy : List Hierarchy := []
  meshForNode : List (Nat × Nat) := []
  materialForNode : List (Nat × Nat) := []
  nameForNode : List (Nat × Nat) := []
  nodeNames : List String := []
  materialNames : List String := []
  changedAtThisFrame : Nat → List Int := fun _ => []

variable {M : Type}

/-- Hierarchy record at a `Nat` index (out of range yields the default record). -/
def hIdx (s : Scene M) (n : Nat) : Hierarchy := s.hierarchy.getD n {}

/-- Hierarchy record at a C++ `int` index. -/
def hAt (s : Scene M) (n : Int) : Hierarchy := hIdx s n.toNat

/-- Global transform at a `Nat` index. -/
def gIdx [One M] (s : Scene M) (n : Nat) : M := s.globalTransform.getD n 1

/-- Global transform at a C++ `int` index. -/
def gAt [One M] (s : Scene M) (n : Int) : M := gIdx s n.toNat

/-- Local transform at a `Nat` index. -/
def lIdx [One M] (s : Scene M) (n : Nat) : M := s.localTransform.getD n 1

/-- Local transform at a C++ `int` index. -/
def lAt [One M] (s : Scene M) (n : Int) : M := lIdx s n.toNat

/-- Overwrite the global transform of node `n`. -/
def setGlobal (s : Scene M) (n : Int) (v : M) : Scene M :=
  { s with globalTransform := s.globalTransform.set n.toNat v }

/-- Validity of a scene as produced by `addNode`-based construction:
parallel arrays have equal length, node `0` is the unique root, every other
node's parent precedes it and `level = parent.level + 1`, and child/sibling
references point strictly forward (or are `-1`). -/
def ValidScene (s : Scene M) : Prop :=
  s.localTransform.length = s.hierarchy.length ∧
  s.globalTransform.length = s.hierarchy.length ∧
  (∀ i, i < s.hierarchy.length →
    ((hIdx s i).parent = -1 ↔ i = 0) ∧
    (0 < i → 0 ≤ (hIdx s i).parent ∧ (hIdx s i).parent.toNat < i ∧
      (hIdx s i).level = (hIdx s (hIdx s i).parent.toNat).level + 1) ∧
    (i = 0 → (hIdx s i).level = 0) ∧
    ((hIdx s i).firstChild = -1 ∨
      (i < (hIdx s i).firstChild.toNat ∧ (hIdx s i).firstChild.toNat < s.hierarchy.length)) ∧
    ((hIdx s i).nextSibling = -1 ∨
      (i < (hIdx s i).nextSibling.toNat ∧ (hIdx s i).nextSibling.toNat < s.hierarchy.length)))

instance (s : Scene M) : Decidable (ValidScene s) := by
  unfold ValidScene
  infer_instance

theorem validScene_level_nonneg (s : Scene M) (hv : ValidScene s) :
    ∀ i, i < s.hierarchy.length → 0 ≤ (hIdx s i).level := by
  intro i
  induction i using Nat.strong_induction_on with
  | _ i ih =>
    intro hi
    rcases Nat.eq_zero_or_pos i with h0 | hpos
    · subst h0
      have := (hv.2.2 0 hi).2.2.1 rfl
      omega
    · obtain ⟨-, hp2, hp3⟩ := (hv.2.2 i hi).2.1 hpos
      have := ih (hIdx s i).parent.toNat (by omega) (by omega)
      omega

theorem validScene_level_zero (s : Scene M) (hv : ValidScene s) :
    ∀ i, i < s.hierarchy.length → (hIdx s i).level = 0 → i = 0 := by
  intro i hi hl
  by_contra hne
  have hpos : 0 < i := Nat.pos_of_ne_zero hne
  obtain ⟨-, hp2, hp3⟩ := (hv.2.2 i hi).2.1 hpos
  have := validScene_level_nonneg s hv (hIdx s i).parent.toNat (by omega)
  omega

/-- Update one hierarchy record in place (no-op when out of range, mirroring
that valid code never indexes out of range). -/
def modifyH (s : Scene M) (n : Nat) (f : Hierarchy → Hierarchy) : Scene M :=
  { s with hierarchy := s.hierarchy.set n (f (hIdx s n)) }

/-- The sibling scan of `addNode` (`for (dest = s; hierarchy[dest].nextSibling != -1; ...)`),
with explicit fuel. -/
def lastSiblingScan (s : Scene M) : Nat → Int → Int
  | 0, dest => dest
  | fuel + 1, dest =>
    if (hAt s dest).nextSibling = -1 then dest else lastSiblingScan s fuel (hAt s dest).nextSibling

/-- The three `push_back` calls of `addNode`: identity local and global
transforms plus the hierarchy record `{ .parent = parent }` (the remaining
fields take their C++ default member initializers). -/
def appendNode [One M] (s : Scene M) (parent : Int) : Scene M :=
  { s with
    localTransform := s.localTransform ++ [1]
    globalTransform := s.globalTransform ++ [1]
    hierarchy := s.hierarchy ++ [{ parent := parent }] }

/-- `addNode(scene, parent, level)` from shared/Scene/Scene.cpp: appends identity
transforms and a hierarchy record `{ .parent = parent }`, links the node into the
parent's child/sibling chain (using the cached `lastSibling` when set, else the
linear scan), then stores `level` and terminates the new node's own references. -/
def addNode [One M] (s : Scene M) (parent level : Int) : Scene M × Int :=
  let node : Int := (s.hierarchy.length : Int)
  let s1 : Scene M := appendNode s parent
  let s2 : Scene M :=
    if parent > -1 then
      let sIdx := (hAt s1 parent).firstChild
      if sIdx = -1 then
        modifyH (modifyH s1 parent.toNat fun h => { h with firstChild := node })
          node.toNat fun h => { h with lastSibling := node }
      else
        let dest0 := (hAt s1 sIdx).lastSibling
        let dest := if dest0 ≤ -1 then lastSiblingScan s1 s1.hierarchy.length sIdx else dest0
        modifyH (modifyH s1 dest.toNat fun h => { h with nextSibling := node })
          sIdx.toNat fun h => { h with lastSibling := node }
    else s1
  let s3 := modifyH s2 node.toNat fun h => { h with level := level, nextSibling := -1, firstChild := -1 }
  (s3, node)

/-- Append node `n` to the changed list of level `lvl`. -/
def pushChanged (s : Scene M) (lvl : Nat) (n : Int) : Scene M :=
  { s with changedAtThisFrame := fun j =>
      if j = lvl then s.changedAtThisFrame lvl ++ [n] else s.changedAtThisFrame j }

/-- Fueled preorder walk underlying `markAsChanged`: mark node `n`, its subtree,
and the subtrees of its later siblings (`n = -1` ends a chain). -/
def markTree (M : Type) : Nat → Scene M → Int → Scene M
  | 0, s, _ => s
  | fuel + 1, s, n =>
    if n = -1 then s
    else
      let s1 := pushChanged s (hAt s n).level.toNat n
      let s2 := markTree M fuel s1 (hAt s1 n).firstChild
      markTree M fuel s2 (hAt s2 n).nextSibling

/-- `markAsChanged(scene, node)`: push the node itself on its level's changed
list, then walk the child chain recursively. -/
def markAsChanged (fuel : Nat) (s : Scene M) (node : Int) : Scene M :=
  markTree M fuel (pushChanged s (hAt s node).level.toNat node) (hAt s node).firstChild

/-- Empty the changed list of level `i`. -/
def clearLevel (s : Scene M) (i : Nat) : Scene M :=
  { s with changedAtThisFrame := fun j => if j = i then [] else s.changedAtThisFrame j }

/-- One body iteration of the inner loop of `recalculateGlobalTransforms`:
`globalTransform[c] = globalTransform[hierarchy[c].parent] * localTransform[c]`. -/
def updateNode [Mul M] [One M] (s : Scene M) (c : Int) : Scene M :=
  setGlobal s c (gAt s (hAt s c).parent * lAt s c)

/-- Process all changed nodes of one level, in list order. -/
def processLevel [Mul M] [One M] (s : Scene M) (cs : List Int) : Scene M :=
  cs.foldl updateNode s

/-- The level loop `for (int i = 1; i < MAX_NODE_LEVEL && !changed[i].empty(); i++)`;
the first argument replays `MAX_NODE_LEVEL`, the fuel bounds the iteration count. -/
def recalcLoop [Mul M] [One M] (maxLevel : Nat) : Nat → Nat → Scene M → Scene M
  | 0, _, s => s
  | fuel + 1, i, s =>
    if i < maxLevel ∧ s.changedAtThisFrame i ≠ [] then
      recalcLoop maxLevel fuel (i + 1) (clearLevel (processLevel s (s.changedAtThisFrame i)) i)
    else s

/-- `recalculateGlobalTransforms(scene)`: the root entry of level 0 (if any) gets
`global = local`, then levels `1 .. MAX_NODE_LEVEL-1` are drained in increasing
order until the first empty list. -/
def recalculateGlobalTransforms [Mul M] [One M] (maxLevel : Nat) (s : Scene M) : Scene M :=
  let s0 :=
    match s.changedAtThisFrame 0 with
    | [] => s
    | c :: _ => clearLevel (setGlobal s c (lAt s c)) 0
  recalcLoop maxLevel maxLevel 1 s0

theorem getD_set_ne {α : Type _} (l : List α) (i j : Nat) (v d : α) (h : i ≠ j) :
    (l.set i v).getD j d = l.getD j d := by
  induction l generalizing i j with
  | nil => simp
  | cons a t ih =>
    cases i with
    | zero => cases j with
      | zero => omega
      | succ j => simp
    | succ i => cases j with
      | zero => simp
      | succ j => simpa using ih i j (by omega)

theorem getD_set_self {α : Type _} (l : List α) (i : Nat) (v d : α) (h : i < l.length) :
    (l.set i v).getD i d = v := by
  induction l generalizing i with
  | nil => simp at h
  | cons a t ih =>
    cases i with
    | zero => simp
    | succ i => simpa using ih i (by simpa using h)

/-- Scenes with equal backing arrays satisfy `ValidScene` together. -/
theorem validScene_congr {s t : Scene M} (hh : t.hierarchy = s.hierarchy)
    (hl : t.localTransform = s.localTransform) (hg : t.globalTransform.length = s.globalTransform.length)
    (hv : ValidScene s) : ValidScene t := by
  unfold ValidScene at hv ⊢
  unfold hIdx
  rw [hh, hl, hg]
  exact hv

/-- Level-consistency of the changed lists at levels `≥ i`: every listed node is a
valid index whose stored level equals the list's level. -/
def LevelListsFrom (s : Scene M) (i : Nat) : Prop :=
  ∀ j, i ≤ j → ∀ c ∈ s.changedAtThisFrame j,
    0 ≤ c ∧ c.toNat < s.hierarchy.length ∧ (hIdx s c.toNat).level = (j : Int)

@[simp] theorem updateNode_hierarchy [Mul M] [One M] (s : Scene M) (c : Int) :
    (updateNode s c).hierarchy = s.hierarchy := rfl

@[simp] theorem updateNode_local [Mul M] [One M] (s : Scene M) (c : Int) :
    (updateNode s c).localTransform = s.localTransform := rfl

@[simp] theorem updateNode_changed [Mul M] [One M] (s : Scene M) (c : Int) :
    (updateNode s c).changedAtThisFrame = s.changedAtThisFrame := rfl

@[simp] theorem updateNode_global_length [Mul M] [One M] (s : Scene M) (c : Int) :
    (updateNode s c).globalTransform.length = s.globalTransform.length := by
  simp [updateNode, setGlobal]

theorem processLevel_cons [Mul M] [One M] (s : Scene M) (c : Int) (cs : List Int) :
    processLevel s (c :: cs) = processLevel (updateNode s c) cs := rfl

@[simp] theorem processLevel_hierarchy [Mul M] [One M] (s : Scene M) (cs : List Int) :
    (processLevel s cs).hierarchy = s.hierarchy := by
  induction cs generalizing s with
  | nil => rfl
  | cons c cs ih => rw [processLevel_cons, ih]; rfl

@[simp] theorem processLevel_local [Mul M] [One M] (s : Scene M) (cs : List Int) :
    (processLevel s cs).localTransform = s.localTransform := by
  induction cs generalizing s with
  | nil => rfl
  | cons c cs ih => rw [processLevel_cons, ih]; rfl

@[simp] theorem processLevel_changed [Mul M] [One M] (s : Scene M) (cs : List Int) :
    (processLevel s cs).changedAtThisFrame = s.changedAtThisFrame := by
  induction cs generalizing s with
  | nil => rfl
  | cons c cs ih => rw [processLevel_cons, ih]; rfl

@[simp] theorem processLevel_global_length [Mul M] [One M] (s : Scene M) (cs : List Int) :
    (processLevel s cs).globalTransform.length = s.globalTransform.length := by
  induction cs generalizing s with
  | nil => rfl
  | cons c cs ih => rw [processLevel_cons, ih]; simp

theorem gIdx_updateNode_ne [Mul M] [One M] (s : Scene M) (c : Int) (n : Nat)
    (h : c.toNat ≠ n) : gIdx (updateNode s c) n = gIdx s n := by
  unfold updateNode setGlobal gIdx
  exact getD_set_ne _ _ _ _ _ h

theorem gIdx_processLevel_ne [Mul M] [One M] (s : Scene M) (cs : List Int) (n : Nat)
    (h : ∀ c ∈ cs, c.toNat ≠ n) : gIdx (processLevel s cs) n = gIdx s n := by
  induction cs generalizing s with
  | nil => rfl
  | cons c cs ih =>
    rw [processLevel_cons, ih _ fun d hd => h d (List.mem_cons_of_mem _ hd)]
    exact gIdx_updateNode_ne s c n (h c (List.mem_cons_self _ _))

theorem gIdx_updateNode_self [Mul M] [One M] (s : Scene M) (c : Int)
    (h : c.toNat < s.globalTransform.length) :
    gIdx (updateNode s c) c.toNat = gIdx s (hIdx s c.toNat).parent.toNat * lIdx s c.toNat := by
  unfold updateNode setGlobal gIdx
  exact getD_set_self _ _ _ _ h

/-- After processing a level-`i` list, every listed node's global transform equals
its parent's pre-pass global times its local transform (parents live on level
`i - 1` and are untouched by the level-`i` writes). -/
theorem gIdx_processLevel_eq [Mul M] [One M] (i : Int) (cs : List Int) (s : Scene M)
    (hlen : s.globalTransform.length = s.hierarchy.length)
    (hcs : ∀ c ∈ cs, 0 ≤ c ∧ c.toNat < s.hierarchy.length ∧ (hIdx s c.toNat).level = i ∧
      (hIdx s (hIdx s c.toNat).parent.toNat).level ≠ i) :
    ∀ c ∈ cs, gIdx (processLevel s cs) c.toNat =
      gIdx s (hIdx s c.toNat).parent.toNat * lIdx s c.toNat := by
  induction cs generalizing s with
  | nil => simp
  | cons c rest ih =>
    have hc := hcs c (List.mem_cons_self _ _)
    have hwrite : ∀ e ∈ c :: rest, ∀ n, n < s.hierarchy.length →
        (hIdx s n).level ≠ i → e.toNat ≠ n := by
      intro e he n _ hni hcon
      obtain ⟨-, -, hel, -⟩ := hcs e he
      rw [hcon] at hel
      exact hni hel
    intro d hd
    rw [processLevel_cons]
    have hrest : ∀ e ∈ rest, 0 ≤ e ∧ e.toNat < (updateNode s c).hierarchy.length ∧
        (hIdx (updateNode s c) e.toNat).level = i ∧
        (hIdx (updateNode s c) (hIdx (updateNode s c) e.toNat).parent.toNat).level ≠ i := by
      intro e he
      exact hcs e (List.mem_cons_of_mem _ he)
    have hparent_ne : ∀ e ∈ c :: rest, c.toNat ≠ (hIdx s e.toNat).parent.toNat := by
      intro e he
      obtain ⟨-, -, -, hpl⟩ := hcs e he
      intro hcon
      obtain ⟨-, -, hcl, -⟩ := hcs c (List.mem_cons_self _ _)
      rw [hcon] at hcl
      exact hpl hcl
    rcases List.mem_cons.mp hd with rfl | hdr
    · by_cases hdup : ∃ e ∈ rest, e.toNat = d.toNat
      · obtain ⟨e, he, het⟩ := hdup
        have hed : e = d := by
          obtain ⟨he0, -, -, -⟩ := hcs e (List.mem_cons_of_mem _ he)
          have hd0 := hc.1
          omega
        subst hed
        have := ih (updateNode s e) (by simpa using hlen) hrest e he
        rw [this]
        have hpne : e.toNat ≠ (hIdx s e.toNat).parent.toNat :=
          hparent_ne e (List.mem_cons_of_mem _ he)
        rw [show hIdx (updateNode s e) e.toNat = hIdx s e.toNat from rfl] at *
        rw [show lIdx (updateNode s e) e.toNat = lIdx s e.toNat from rfl]
        rw [gIdx_updateNode_ne s e _ hpne]
      · push_neg at hdup
        rw [gIdx_processLevel_ne _ _ _ hdup]
        have hself := gIdx_updateNode_self s d (by omega)
        rw [hself]
    · have := ih (updateNode s c) (by simpa using hlen) hrest d hdr
      rw [this]
      have hpne : c.toNat ≠ (hIdx s d.toNat).parent.toNat := hparent_ne d hd
      rw [show hIdx (updateNode s c) d.toNat = hIdx s d.toNat from rfl] at *
      rw [show lIdx (updateNode s c) d.toNat = lIdx s d.toNat from rfl]
      rw [gIdx_updateNode_ne s c _ hpne]

@[simp] theorem clearLevel_changed (s : Scene M) (i j : Nat) :
    (clearLevel s i).changedAtThisFrame j = if j = i then [] else s.changedAtThisFrame j := rfl

@[simp] theorem clearLevel_hierarchy (s : Scene M) (i : Nat) :
    (clearLevel s i).hierarchy = s.hierarchy := rfl

@[simp] theorem clearLevel_local (s : Scene M) (i : Nat) :
    (clearLevel s i).localTransform = s.localTransform := rfl

@[simp] theorem clearLevel_global (s : Scene M) (i : Nat) :
    (clearLevel s i).globalTransform = s.globalTransform := rfl

@[simp] theorem hIdx_clearLevel (s : Scene M) (i n : Nat) :
    hIdx (clearLevel s i) n = hIdx s n := rfl

@[simp] theorem hIdx_processLevel [Mul M] [One M] (s : Scene M) (cs : List Int) (n : Nat) :
    hIdx (processLevel s cs) n = hIdx s n := by
  unfold hIdx
  rw [processLevel_hierarchy]

/-- The level loop leaves the hierarchy, local transforms, changed lists below the
start level, and global transforms of nodes below the start level untouched. -/
theorem recalcLoop_footprint [Mul M] [One M] (maxLevel : Nat) (fuel : Nat) :
    ∀ i (s : Scene M), LevelListsFrom s i →
      (recalcLoop maxLevel fuel i s).hierarchy = s.hierarchy ∧
      (recalcLoop maxLevel fuel i s).localTransform = s.localTransform ∧
      (recalcLoop maxLevel fuel i s).globalTransform.length = s.globalTransform.length ∧
      (∀ j, j < i → (recalcLoop maxLevel fuel i s).changedAtThisFrame j = s.changedAtThisFrame j) ∧
      (∀ n, n < s.hierarchy.length → (hIdx s n).level < (i : Int) →
        gIdx (recalcLoop maxLevel fuel i s) n = gIdx s n) := by
  induction fuel with
  | zero => intro i s _; simp [recalcLoop]
  | succ fuel ih =>
    intro i s hll
    rw [recalcLoop]
    by_cases hc : i < maxLevel ∧ s.changedAtThisFrame i ≠ []
    · rw [if_pos hc]
      have hll' : LevelListsFrom (clearLevel (processLevel s (s.changedAtThisFrame i)) i) (i + 1) := by
        intro j hj c hcmem
        simp only [clearLevel_changed, processLevel_changed] at hcmem
        rw [if_neg (by omega)] at hcmem
        have := hll j (by omega) c hcmem
        simpa using this
      obtain ⟨ihH, ihL, ihG, ihC, ihV⟩ := ih (i + 1) _ hll'
      refine ⟨by simpa using ihH, by simpa using ihL, by simpa using ihG, ?_, ?_⟩
      · intro j hj
        rw [ihC j (by omega)]
        simp [if_neg (by omega : ¬ j = i)]
      · intro n hn hlev
        have hne : ∀ c ∈ s.changedAtThisFrame i, c.toNat ≠ n := by
          intro c hcm hcon
          have := (hll i le_rfl c hcm).2.2
          rw [hcon] at this
          omega
        have hlev' : (hIdx (clearLevel (processLevel s (s.changedAtThisFrame i)) i) n).level <
            ((i + 1 : Nat) : Int) := by
          simp only [hIdx_clearLevel, hIdx_processLevel]
          push_cast
          omega
        rw [ihV n (by simpa using hn) hlev']
        show gIdx (processLevel s (s.changedAtThisFrame i)) n = gIdx s n
        exact gIdx_processLevel_ne _ _ _ hne
    · rw [if_neg hc]
      exact ⟨rfl, rfl, rfl, fun _ _ => rfl, fun _ _ _ => rfl⟩

@[simp] theorem lIdx_clearLevel [One M] (s : Scene M) (i n : Nat) :
    lIdx (clearLevel s i) n = lIdx s n := rfl

@[simp] theorem lIdx_processLevel [Mul M] [One M] (s : Scene M) (cs : List Int) (n : Nat) :
    lIdx (processLevel s cs) n = lIdx s n := by
  unfold lIdx
  rw [processLevel_local]

/-- Correctness of the level loop on a valid scene with level-consistent changed
lists: provided levels `i .. L` are all non-empty (`L < MAX_NODE_LEVEL`), every
node listed at level `j ∈ [i, L]` ends with `global = parent.global * local`,
and the list of each such level is cleared. -/
theorem recalcLoop_correct [Mul M] [One M] (maxLevel L : Nat) (fuel : Nat) :
    ∀ i (s : Scene M), ValidScene s → maxLevel ≤ fuel + i → 1 ≤ i → L < maxLevel →
      LevelListsFrom s i →
      (∀ j, i ≤ j → j ≤ L → s.changedAtThisFrame j ≠ []) →
      ∀ j, i ≤ j → j ≤ L →
        (∀ c ∈ s.changedAtThisFrame j,
          gIdx (recalcLoop maxLevel fuel i s) c.toNat =
            gIdx (recalcLoop maxLevel fuel i s) (hIdx s c.toNat).parent.toNat * lIdx s c.toNat) ∧
        (recalcLoop maxLevel fuel i s).changedAtThisFrame j = [] := by
  induction fuel with
  | zero => intro i s _ hfi _ hL _ _ j hij hjL; omega
  | succ fuel ih =>
    intro i s hv hfi hi1 hL hll hne j hij hjL
    have hc : i < maxLevel ∧ s.changedAtThisFrame i ≠ [] := ⟨by omega, hne i le_rfl (by omega)⟩
    rw [recalcLoop, if_pos hc]
    have hll' : LevelListsFrom (clearLevel (processLevel s (s.changedAtThisFrame i)) i) (i + 1) := by
      intro j' hj' c hcmem
      simp only [clearLevel_changed, processLevel_changed] at hcmem
      rw [if_neg (by omega)] at hcmem
      have := hll j' (by omega) c hcmem
      simpa using this
    have hv' : ValidScene (clearLevel (processLevel s (s.changedAtThisFrame i)) i) :=
      validScene_congr (by simp) (by simp) (by simp) hv
    -- facts about each node listed at level i
    have hfacts : ∀ c ∈ s.changedAtThisFrame i, 0 ≤ c ∧ c.toNat < s.hierarchy.length ∧
        (hIdx s c.toNat).level = (i : Int) ∧ 0 ≤ (hIdx s c.toNat).parent ∧
        (hIdx s c.toNat).parent.toNat < c.toNat ∧
        (hIdx s (hIdx s c.toNat).parent.toNat).level = (i : Int) - 1 := by
      intro c hcm
      obtain ⟨h0, hlt, hlev⟩ := hll i le_rfl c hcm
      have hpos : 0 < c.toNat := by
        rcases Nat.eq_zero_or_pos c.toNat with hz | hp
        · exfalso
          have := (hv.2.2 c.toNat hlt).2.2.1 hz
          omega
        · exact hp
      obtain ⟨hp0, hplt, hpl⟩ := (hv.2.2 c.toNat hlt).2.1 hpos
      exact ⟨h0, hlt, hlev, hp0, hplt, by omega⟩
    obtain ⟨fpH, fpL, fpG, fpC, fpV⟩ :=
      recalcLoop_footprint maxLevel fuel (i + 1) _ hll'
    by_cases hji : j = i
    · subst hji
      constructor
      · intro c hcm
        obtain ⟨h0, hlt, hlev, hp0, hplt, hpl⟩ := hfacts c hcm
        have hval := gIdx_processLevel_eq (j : Int) (s.changedAtThisFrame j) s hv.2.1
          (fun e he => by
            obtain ⟨e0, elt, elev, ep0, eplt, epl⟩ := hfacts e he
            exact ⟨e0, elt, elev, by omega⟩) c hcm
        have hcfin : gIdx (recalcLoop maxLevel fuel (j + 1)
            (clearLevel (processLevel s (s.changedAtThisFrame j)) j)) c.toNat =
            gIdx s (hIdx s c.toNat).parent.toNat * lIdx s c.toNat := by
          rw [fpV c.toNat (by simpa using hlt) (by simp only [hIdx_clearLevel, hIdx_processLevel]; push_cast; omega)]
          simpa using hval
        have hpfin : gIdx (recalcLoop maxLevel fuel (j + 1)
            (clearLevel (processLevel s (s.changedAtThisFrame j)) j)) (hIdx s c.toNat).parent.toNat =
            gIdx s (hIdx s c.toNat).parent.toNat := by
          rw [fpV (hIdx s c.toNat).parent.toNat (by simpa using by omega : _)
            (by simp only [hIdx_clearLevel, hIdx_processLevel]; push_cast; omega)]
          show gIdx (processLevel s (s.changedAtThisFrame j)) _ = _
          refine gIdx_processLevel_ne _ _ _ ?_
          intro e he hcon
          obtain ⟨-, -, elev, -, -, -⟩ := hfacts e he
          rw [hcon] at elev
          omega
        rw [hcfin, hpfin]
      · rw [fpC j (by omega)]
        simp
    · have hne' : ∀ j', i + 1 ≤ j' → j' ≤ L →
          (clearLevel (processLevel s (s.changedAtThisFrame i)) i).changedAtThisFrame j' ≠ [] := by
        intro j' h1 h2
        simp only [clearLevel_changed, processLevel_changed]
        rw [if_neg (by omega)]
        exact hne j' (by omega) h2
      have := ih (i + 1) _ hv' (by omega) (by omega) hL hll' hne' j (by omega) hjL
      obtain ⟨ha, hb⟩ := this
      constructor
      · intro c hcm
        have hcm' : c ∈ (clearLevel (processLevel s (s.changedAtThisFrame i)) i).changedAtThisFrame j := by
          simp only [clearLevel_changed, processLevel_changed]
          rw [if_neg (by omega)]
          exact hcm
        have := ha c hcm'
        simpa using this
      · exact hb

theorem hIdx_congr {s t : Scene M} (h : t.hierarchy = s.hierarchy) (n : Nat) :
    hIdx t n = hIdx s n := by
  unfold hIdx
  rw [h]

theorem lIdx_congr [One M] {s t : Scene M} (h : t.localTransform = s.localTransform) (n : Nat) :
    lIdx t n = lIdx s n := by
  unfold lIdx
  rw [h]

@[simp] theorem pushChanged_hierarchy (s : Scene M) (lvl : Nat) (n : Int) :
    (pushChanged s lvl n).hierarchy = s.hierarchy := rfl

@[simp] theorem pushChanged_local (s : Scene M) (lvl : Nat) (n : Int) :
    (pushChanged s lvl n).localTransform = s.localTransform := rfl

@[simp] theorem pushChanged_global (s : Scene M) (lvl : Nat) (n : Int) :
    (pushChanged s lvl n).globalTransform = s.globalTransform := rfl

theorem markTree_arrays (fuel : Nat) : ∀ (s : Scene M) (n : Int),
    (markTree M fuel s n).hierarchy = s.hierarchy ∧
    (markTree M fuel s n).localTransform = s.localTransform ∧
    (markTree M fuel s n).globalTransform = s.globalTransform := by
  induction fuel with
  | zero => intro s n; exact ⟨rfl, rfl, rfl⟩
  | succ fuel ih =>
    intro s n
    rw [markTree]
    by_cases hn : n = -1
    · rw [if_pos hn]; exact ⟨rfl, rfl, rfl⟩
    · rw [if_neg hn]
      obtain ⟨h1, h2, h3⟩ := ih (pushChanged s (hAt s n).level.toNat n) (hAt (pushChanged s (hAt s n).level.toNat n) n).firstChild
      obtain ⟨g1, g2, g3⟩ := ih _ (hAt (markTree M fuel (pushChanged s (hAt s n).level.toNat n) (hAt (pushChanged s (hAt s n).level.toNat n) n).firstChild) n).nextSibling
      exact ⟨by rw [g1, h1]; rfl, by rw [g2, h2]; rfl, by rw [g3, h3]; rfl⟩

theorem markTree_levelLists (fuel : Nat) : ∀ (s : Scene M) (n : Int),
    ValidScene s → LevelListsFrom s 0 →
    (n = -1 ∨ (0 ≤ n ∧ n.toNat < s.hierarchy.length)) →
    LevelListsFrom (markTree M fuel s n) 0 := by
  induction fuel with
  | zero => intro s n _ hll _; exact hll
  | succ fuel ih =>
    intro s n hv hll hn
    rw [markTree]
    by_cases hne : n = -1
    · rw [if_pos hne]; exact hll
    · rw [if_neg hne]
      rcases hn with hn | ⟨hn0, hnlt⟩
      · exact absurd hn hne
      have hlevnn : 0 ≤ (hIdx s n.toNat).level := validScene_level_nonneg s hv n.toNat hnlt
      have hll1 : LevelListsFrom (pushChanged s (hAt s n).level.toNat n) 0 := by
        intro j _ c hcm
        simp only [pushChanged] at hcm
        by_cases hj : j = (hAt s n).level.toNat
        · rw [if_pos hj] at hcm
          rcases List.mem_append.mp hcm with hcm | hcm
          · have := hll (hAt s n).level.toNat (Nat.zero_le _) c hcm
            rw [hj]
            simpa using this
          · have hcn : c = n := by simpa using hcm
            subst hcn
            refine ⟨hn0, by simpa using hnlt, ?_⟩
            show (hIdx s c.toNat).level = _
            rw [hj]
            unfold hAt
            omega
        · rw [if_neg hj] at hcm
          have := hll j (Nat.zero_le _) c hcm
          simpa using this
      have hv1 : ValidScene (pushChanged s (hAt s n).level.toNat n) :=
        validScene_congr rfl rfl rfl hv
      have hpAt : hAt (pushChanged s (hAt s n).level.toNat n) n = hIdx s n.toNat := rfl
      have hfc : (hAt (pushChanged s (hAt s n).level.toNat n) n).firstChild = -1 ∨
          (0 ≤ (hAt (pushChanged s (hAt s n).level.toNat n) n).firstChild ∧
           (hAt (pushChanged s (hAt s n).level.toNat n) n).firstChild.toNat <
             (pushChanged s (hAt s n).level.toNat n).hierarchy.length) := by
        rw [hpAt]
        rcases (hv.2.2 n.toNat hnlt).2.2.2.1 with h | ⟨h1, h2⟩
        · exact Or.inl h
        · exact Or.inr ⟨by omega, by simpa using h2⟩
      have hll2 := ih _ _ hv1 hll1 hfc
      obtain ⟨mh, ml, mg⟩ := markTree_arrays (M := M) fuel (pushChanged s (hAt s n).level.toNat n)
        (hAt (pushChanged s (hAt s n).level.toNat n) n).firstChild
      have hv2 : ValidScene (markTree M fuel (pushChanged s (hAt s n).level.toNat n)
          (hAt (pushChanged s (hAt s n).level.toNat n) n).firstChild) :=
        validScene_congr (by rw [mh]; rfl) (by rw [ml]; rfl) (by rw [mg]; rfl) hv
      refine ih _ _ hv2 hll2 ?_
      have hmh2 : (markTree M fuel (pushChanged s (hAt s n).level.toNat n)
          (hAt (pushChanged s (hAt s n).level.toNat n) n).firstChild).hierarchy = s.hierarchy := by
        rw [mh]
        rfl
      have hAtEq : hAt (markTree M fuel (pushChanged s (hAt s n).level.toNat n)
          (hAt (pushChanged s (hAt s n).level.toNat n) n).firstChild) n = hIdx s n.toNat :=
        hIdx_congr hmh2 n.toNat
      rw [hAtEq]
      rcases (hv.2.2 n.toNat hnlt).2.2.2.2 with h | ⟨h1, h2⟩
      · exact Or.inl h
      · refine Or.inr ⟨by omega, ?_⟩
        rw [hmh2]
        omega

theorem markAsChanged_arrays (fuel : Nat) (s : Scene M) (node : Int) :
    (markAsChanged fuel s node).hierarchy = s.hierarchy ∧
    (markAsChanged fuel s node).localTransform = s.localTransform ∧
    (markAsChanged fuel s node).globalTransform = s.globalTransform := by
  unfold markAsChanged
  obtain ⟨h1, h2, h3⟩ := markTree_arrays (M := M) fuel
    (pushChanged s (hAt s node).level.toNat node) (hAt s node).firstChild
  exact ⟨by rw [h1]; rfl, by rw [h2]; rfl, by rw [h3]; rfl⟩

theorem markAsChanged_levelLists (fuel : Nat) (s : Scene M) (node : Int)
    (hv : ValidScene s) (hll : LevelListsFrom s 0)
    (hnode : 0 ≤ node ∧ node.toNat < s.hierarchy.length) :
    LevelListsFrom (markAsChanged fuel s node) 0 := by
  unfold markAsChanged
  have hlevnn : 0 ≤ (hIdx s node.toNat).level := validScene_level_nonneg s hv node.toNat hnode.2
  have hll1 : LevelListsFrom (pushChanged s (hAt s node).level.toNat node) 0 := by
    intro j _ c hcm
    simp only [pushChanged] at hcm
    by_cases hj : j = (hAt s node).level.toNat
    · rw [if_pos hj] at hcm
      rcases List.mem_append.mp hcm with hcm | hcm
      · have := hll (hAt s node).level.toNat (Nat.zero_le _) c hcm
        rw [hj]
        simpa using this
      · have hcn : c = node := by simpa using hcm
        subst hcn
        refine ⟨hnode.1, by simpa using hnode.2, ?_⟩
        show (hIdx s c.toNat).level = _
        rw [hj]
        unfold hAt
        omega
    · rw [if_neg hj] at hcm
      have := hll j (Nat.zero_le _) c hcm
      simpa using this
  have hv1 : ValidScene (pushChanged s (hAt s node).level.toNat node) :=
    validScene_congr rfl rfl rfl hv
  refine markTree_levelLists fuel _ _ hv1 hll1 ?_
  have hAtn : hAt s node = hIdx s node.toNat := rfl
  rw [hAtn]
  rcases (hv.2.2 node.toNat hnode.2).2.2.2.1 with h | ⟨h1, h2⟩
  · exact Or.inl h
  · exact Or.inr ⟨by omega, by simpa using h2⟩

/-- Mark each node of `ns` changed, one `markAsChanged` call per node. -/
def markMany (fuel : Nat) (s : Scene M) (ns : List Int) : Scene M :=
  ns.foldl (markAsChanged fuel) s

theorem markMany_arrays (fuel : Nat) (ns : List Int) : ∀ (s : Scene M),
    (markMany fuel s ns).hierarchy = s.hierarchy ∧
    (markMany fuel s ns).localTransform = s.localTransform ∧
    (markMany fuel s ns).globalTransform = s.globalTransform := by
  induction ns with
  | nil => intro s; exact ⟨rfl, rfl, rfl⟩
  | cons n ns ih =>
    intro s
    obtain ⟨h1, h2, h3⟩ := ih (markAsChanged fuel s n)
    obtain ⟨g1, g2, g3⟩ := markAsChanged_arrays fuel s n
    exact ⟨by rw [show markMany fuel s (n :: ns) = markMany fuel (markAsChanged fuel s n) ns from rfl, h1, g1],
           by rw [show markMany fuel s (n :: ns) = markMany fuel (markAsChanged fuel s n) ns from rfl, h2, g2],
           by rw [show markMany fuel s (n :: ns) = markMany fuel (markAsChanged fuel s n) ns from rfl, h3, g3]⟩

theorem markMany_levelLists (fuel : Nat) (ns : List Int) : ∀ (s : Scene M),
    ValidScene s → LevelListsFrom s 0 →
    (∀ n ∈ ns, 0 ≤ n ∧ n.toNat < s.hierarchy.length) →
    LevelListsFrom (markMany fuel s ns) 0 := by
  induction ns with
  | nil => intro s _ hll _; exact hll
  | cons n ns ih =>
    intro s hv hll hns
    obtain ⟨g1, g2, g3⟩ := markAsChanged_arrays (M := M) fuel s n
    refine ih (markAsChanged fuel s n)
      (validScene_congr g1 g2 (by rw [g3]) hv)
      (markAsChanged_levelLists fuel s n hv hll (hns n (List.mem_cons_self _ _)))
      ?_
    intro m hm
    rw [g1]
    exact hns m (List.mem_cons_of_mem _ hm)

@[simp] theorem setGlobal_hierarchy (s : Scene M) (c : Int) (v : M) :
    (setGlobal s c v).hierarchy = s.hierarchy := rfl

@[simp] theorem setGlobal_local (s : Scene M) (c : Int) (v : M) :
    (setGlobal s c v).localTransform = s.localTransform := rfl

@[simp] theorem setGlobal_changed (s : Scene M) (c : Int) (v : M) :
    (setGlobal s c v).changedAtThisFrame = s.changedAtThisFrame := rfl

@[simp] theorem hIdx_setGlobal (s : Scene M) (c : Int) (v : M) (n : Nat) :
    hIdx (setGlobal s c v) n = hIdx s n := rfl

@[simp] theorem setGlobal_global_length (s : Scene M) (c : Int) (v : M) :
    (setGlobal s c v).globalTransform.length = s.globalTransform.length := by
  simp [setGlobal]

theorem recalculateGlobalTransforms_eq_nil [Mul M] [One M] (maxLevel : Nat) (s : Scene M)
    (h : s.changedAtThisFrame 0 = []) :
    recalculateGlobalTransforms maxLevel s = recalcLoop maxLevel maxLevel 1 s := by
  unfold recalculateGlobalTransforms
  rw [h]

theorem recalculateGlobalTransforms_eq_cons [Mul M] [One M] (maxLevel : Nat) (s : Scene M)
    (c : Int) (rest : List Int) (h : s.changedAtThisFrame 0 = c :: rest) :
    recalculateGlobalTransforms maxLevel s =
      recalcLoop maxLevel maxLevel 1 (clearLevel (setGlobal s c (lAt s c)) 0) := by
  unfold recalculateGlobalTransforms
  rw [h]

/-- C1, amended.  On a valid finite-depth scene whose changed lists start
empty, after `markAsChanged` is called on any set of nodes and
`recalculateGlobalTransforms` is run once: a marked root gets
`global = local` and level 0 is cleared, and for every level `j` up to any
`L` such that levels `1 .. L` are all non-empty (`L < MAX_NODE_LEVEL`),
every node listed at level `j` satisfies
`global[n] = global[parent(n)] * local[n]` and level `j`'s list is cleared.
(The loop stops at the first empty level, so the contiguity hypothesis is
necessary; the original unconditional claim is refuted by
`recalculateGlobalTransforms_level_gap_cex`.) -/
theorem recalculateGlobalTransforms_after_mark [Mul M] [One M]
    (maxLevel L fuel : Nat) (s0 : Scene M) (ns : List Int)
    (hv : ValidScene s0) (hempty : s0.changedAtThisFrame = fun _ => [])
    (hns : ∀ n ∈ ns, 0 ≤ n ∧ n.toNat < s0.hierarchy.length)
    (hL : L < maxLevel)
    (hcontig : ∀ j, 1 ≤ j → j ≤ L → (markMany fuel s0 ns).changedAtThisFrame j ≠ []) :
    ((markMany fuel s0 ns).changedAtThisFrame 0 ≠ [] →
      gIdx (recalculateGlobalTransforms maxLevel (markMany fuel s0 ns)) 0 =
        lIdx (recalculateGlobalTransforms maxLevel (markMany fuel s0 ns)) 0 ∧
      (recalculateGlobalTransforms maxLevel (markMany fuel s0 ns)).changedAtThisFrame 0 = []) ∧
    (∀ j, 1 ≤ j → j ≤ L → ∀ c ∈ (markMany fuel s0 ns).changedAtThisFrame j,
      gIdx (recalculateGlobalTransforms maxLevel (markMany fuel s0 ns)) c.toNat =
        gIdx (recalculateGlobalTransforms maxLevel (markMany fuel s0 ns))
          (hIdx (recalculateGlobalTransforms maxLevel (markMany fuel s0 ns)) c.toNat).parent.toNat *
        lIdx (recalculateGlobalTransforms maxLevel (markMany fuel s0 ns)) c.toNat ∧
      (recalculateGlobalTransforms maxLevel (markMany fuel s0 ns)).changedAtThisFrame j = []) := by
  obtain ⟨mH, mL, mG⟩ := markMany_arrays (M := M) fuel ns s0
  have hvS : ValidScene (markMany fuel s0 ns) := validScene_congr mH mL (by rw [mG]) hv
  have hllS : LevelListsFrom (markMany fuel s0 ns) 0 := by
    refine markMany_levelLists fuel ns s0 hv ?_ hns
    intro j _ c hcm
    rw [hempty] at hcm
    simp at hcm
  cases hc0 : (markMany fuel s0 ns).changedAtThisFrame 0 with
  | nil =>
    rw [recalculateGlobalTransforms_eq_nil maxLevel _ hc0]
    have hll1 : LevelListsFrom (markMany fuel s0 ns) 1 := fun j hj c hcm => hllS j (Nat.zero_le _) c hcm
    obtain ⟨fpH, fpL, fpG, fpC, fpV⟩ := recalcLoop_footprint maxLevel maxLevel 1 _ hll1
    constructor
    · intro hcon
      exact absurd rfl hcon
    · intro j h1 hjL c hcm
      obtain ⟨ha, hb⟩ := recalcLoop_correct maxLevel L maxLevel 1 (markMany fuel s0 ns)
        hvS (by omega) le_rfl hL hll1 (fun j' h1' h2' => hcontig j' h1' h2') j h1 hjL
      refine ⟨?_, hb⟩
      have := ha c hcm
      rw [hIdx_congr fpH c.toNat, lIdx_congr fpL c.toNat]
      exact this
  | cons c0 rest =>
    rw [recalculateGlobalTransforms_eq_cons maxLevel _ c0 rest hc0]
    have hc0mem : c0 ∈ (markMany fuel s0 ns).changedAtThisFrame 0 := by
      rw [hc0]; exact List.mem_cons_self _ _
    obtain ⟨hc00, hc0lt, hc0lev⟩ := hllS 0 le_rfl c0 hc0mem
    have hc0z : c0.toNat = 0 := validScene_level_zero _ hvS c0.toNat hc0lt (by simpa using hc0lev)
    have hll1 : LevelListsFrom (clearLevel (setGlobal (markMany fuel s0 ns) c0
        (lAt (markMany fuel s0 ns) c0)) 0) 1 := by
      intro j hj c hcm
      simp only [clearLevel_changed, setGlobal_changed] at hcm
      rw [if_neg (by omega)] at hcm
      have := hllS j (Nat.zero_le _) c hcm
      simpa using this
    have hv1 : ValidScene (clearLevel (setGlobal (markMany fuel s0 ns) c0
        (lAt (markMany fuel s0 ns) c0)) 0) := validScene_congr (by simp) (by simp) (by simp) hvS
    obtain ⟨fpH, fpL, fpG, fpC, fpV⟩ := recalcLoop_footprint maxLevel maxLevel 1 _ hll1
    constructor
    · intro _
      have hlen0 : (0 : Nat) < (markMany fuel s0 ns).globalTransform.length := by
        have := hvS.2.1
        omega
      have hgz : gIdx (clearLevel (setGlobal (markMany fuel s0 ns) c0
          (lAt (markMany fuel s0 ns) c0)) 0) 0 = lAt (markMany fuel s0 ns) c0 := by
        show gIdx (setGlobal (markMany fuel s0 ns) c0 (lAt (markMany fuel s0 ns) c0)) 0 = _
        unfold setGlobal gIdx
        rw [hc0z]
        exact getD_set_self _ _ _ _ hlen0
      constructor
      · rw [fpV 0 (by simp only [clearLevel_hierarchy, setGlobal_hierarchy]; omega) (by
          simp only [hIdx_clearLevel, hIdx_setGlobal]
          rw [← hc0z]
          push_cast
          omega)]
        rw [hgz, lIdx_congr fpL 0]
        show lIdx (markMany fuel s0 ns) c0.toNat = lIdx (markMany fuel s0 ns) 0
        rw [hc0z]
      · rw [fpC 0 (by omega)]
        simp
    · intro j h1 hjL c hcm
      have hcm' : c ∈ (clearLevel (setGlobal (markMany fuel s0 ns) c0
          (lAt (markMany fuel s0 ns) c0)) 0).changedAtThisFrame j := by
        simp only [clearLevel_changed, setGlobal_changed]
        rw [if_neg (by omega)]
        exact hcm
      obtain ⟨ha, hb⟩ := recalcLoop_correct maxLevel L maxLevel 1 _ hv1 (by omega) le_rfl hL hll1
        (by
          intro j' h1' h2'
          simp only [clearLevel_changed, setGlobal_changed]
          rw [if_neg (by omega)]
          exact hcontig j' h1' h2') j h1 hjL
      refine ⟨?_, hb⟩
      have := ha c hcm'
      rw [hIdx_congr fpH c.toNat, lIdx_congr fpL c.toNat]
      exact this

/-- The concrete three-node chain `root -> a -> b` used in the propagation
examples: identity transforms except `local[2] = 5`. -/
def chainScene : Scene Int :=
  { localTransform := [1, 1, 5]
    globalTransform := [1, 1, 1]
    hierarchy :=
      [ { parent := -1, firstChild := 1, nextSibling := -1, lastSibling := -1, level := 0 },
        { parent := 0, firstChild := 2, nextSibling := -1, lastSibling := 1, level := 1 },
        { parent := 1, firstChild := -1, nextSibling := -1, lastSibling := 2, level := 2 } ] }

/-- C1 counterexample: marking only the level-2 node of a valid 3-chain and
running `recalculateGlobalTransforms` once leaves its global transform stale
(`1` instead of `parent.global * local = 5`) and its level list uncleared,
because the loop exits at the first empty level (level 1). -/
theorem recalculateGlobalTransforms_level_gap_cex :
    ValidScene chainScene ∧
    (2 : Int) ∈ (markMany 10 chainScene [2]).changedAtThisFrame 2 ∧
    gIdx (recalculateGlobalTransforms 16 (markMany 10 chainScene [2])) 2 ≠
      gIdx (recalculateGlobalTransforms 16 (markMany 10 chainScene [2]))
        (hIdx (recalculateGlobalTransforms 16 (markMany 10 chainScene [2])) 2).parent.toNat *
      lIdx (recalculateGlobalTransforms 16 (markMany 10 chainScene [2])) 2 ∧
    (recalculateGlobalTransforms 16 (markMany 10 chainScene [2])).changedAtThisFrame 2 ≠ [] := by
  refine ⟨by decide, by decide, by decide, by decide⟩

/-- Witness for `recalculateGlobalTransforms_after_mark`: marking the root of
the 3-chain fills levels 0..2 contiguously, so the theorem applies with `L = 2`. -/
theorem recalculateGlobalTransforms_after_mark_witness :
    ValidScene chainScene ∧
    ((markMany 10 chainScene [0]).changedAtThisFrame 0 ≠ [] →
      gIdx (recalculateGlobalTransforms 16 (markMany 10 chainScene [0])) 0 =
        lIdx (recalculateGlobalTransforms 16 (markMany 10 chainScene [0])) 0 ∧
      (recalculateGlobalTransforms 16 (markMany 10 chainScene [0])).changedAtThisFrame 0 = []) ∧
    (∀ j, 1 ≤ j → j ≤ 2 → ∀ c ∈ (markMany 10 chainScene [0]).changedAtThisFrame j,
      gIdx (recalculateGlobalTransforms 16 (markMany 10 chainScene [0])) c.toNat =
        gIdx (recalculateGlobalTransforms 16 (markMany 10 chainScene [0]))
          (hIdx (recalculateGlobalTransforms 16 (markMany 10 chainScene [0])) c.toNat).parent.toNat *
        lIdx (recalculateGlobalTransforms 16 (markMany 10 chainScene [0])) c.toNat ∧
      (recalculateGlobalTransforms 16 (markMany 10 chainScene [0])).changedAtThisFrame j = []) := by
  refine ⟨by decide, ?_⟩
  exact recalculateGlobalTransforms_after_mark 16 2 10 chainScene [0] (by decide) rfl
    (by decide) (by decide)
    (by intro j h1 h2; interval_cases j <;> decide)

theorem getD_append_lt {α : Type _} (l l' : List α) (n : Nat) (d : α) (h : n < l.length) :
    (l ++ l').getD n d = l.getD n d := by
  induction l generalizing n with
  | nil => simp at h
  | cons a t ih =>
    cases n with
    | zero => simp
    | succ n => simpa using ih n (by simpa using h)

theorem getD_append_self {α : Type _} (l : List α) (x d : α) :
    (l ++ [x]).getD l.length d = x := by
  induction l with
  | nil => simp
  | cons a t ih => simp [ih]

theorem hIdx_modifyH_self (s : Scene M) (n : Nat) (f : Hierarchy → Hierarchy)
    (h : n < s.hierarchy.length) : hIdx (modifyH s n f) n = f (hIdx s n) := by
  unfold modifyH hIdx
  exact getD_set_self _ _ _ _ h

theorem hIdx_modifyH_ne (s : Scene M) (n : Nat) (f : Hierarchy → Hierarchy) (m : Nat)
    (h : n ≠ m) : hIdx (modifyH s n f) m = hIdx s m := by
  unfold modifyH hIdx
  exact getD_set_ne _ _ _ _ _ h

@[simp] theorem modifyH_length (s : Scene M) (n : Nat) (f : Hierarchy → Hierarchy) :
    (modifyH s n f).hierarchy.length = s.hierarchy.length := by
  simp [modifyH]

@[simp] theorem modifyH_local (s : Scene M) (n : Nat) (f : Hierarchy → Hierarchy) :
    (modifyH s n f).localTransform = s.localTransform := rfl

@[simp] theorem modifyH_global (s : Scene M) (n : Nat) (f : Hierarchy → Hierarchy) :
    (modifyH s n f).globalTransform = s.globalTransform := rfl

/-- The sibling scan only depends on the hierarchy records it visits. -/
theorem lastSiblingScan_congr (s t : Scene M)
    (hag : ∀ n, n < s.hierarchy.length → hIdx t n = hIdx s n) (hv : ValidScene s) :
    ∀ fuel (c : Int), 0 ≤ c → c.toNat < s.hierarchy.length →
      lastSiblingScan t fuel c = lastSiblingScan s fuel c := by
  intro fuel
  induction fuel with
  | zero => intro c _ _; rfl
  | succ fuel ih =>
    intro c hc0 hclt
    simp only [lastSiblingScan]
    have hAtEq : hAt t c = hAt s c := hag c.toNat hclt
    rw [hAtEq]
    by_cases hns : (hAt s c).nextSibling = -1
    · rw [if_pos hns, if_pos hns]
    · rw [if_neg hns, if_neg hns]
      have hAtc : hAt s c = hIdx s c.toNat := rfl
      rw [hAtc] at hns ⊢
      rcases (hv.2.2 c.toNat hclt).2.2.2.2 with h | ⟨h1, h2⟩
      · exact absurd h hns
      · exact ih (hIdx s c.toNat).nextSibling (by omega) h2

/-- With enough fuel the sibling scan lands on the end of the chain. -/
theorem lastSiblingScan_end (s : Scene M) (hv : ValidScene s) :
    ∀ fuel (c : Int), 0 ≤ c → c.toNat < s.hierarchy.length →
      s.hierarchy.length ≤ fuel + c.toNat →
      0 ≤ lastSiblingScan s fuel c ∧ (lastSiblingScan s fuel c).toNat < s.hierarchy.length ∧
      (hAt s (lastSiblingScan s fuel c)).nextSibling = -1 := by
  intro fuel
  induction fuel with
  | zero => intro c _ hclt hfuel; omega
  | succ fuel ih =>
    intro c hc0 hclt hfuel
    simp only [lastSiblingScan]
    by_cases hns : (hAt s c).nextSibling = -1
    · rw [if_pos hns]
      exact ⟨hc0, hclt, hns⟩
    · rw [if_neg hns]
      have hAtc : hAt s c = hIdx s c.toNat := rfl
      rw [hAtc] at hns ⊢
      rcases (hv.2.2 c.toNat hclt).2.2.2.2 with h | ⟨h1, h2⟩
      · exact absurd h hns
      · exact ih (hIdx s c.toNat).nextSibling (by omega) h2 (by omega)

@[simp] theorem appendNode_length [One M] (s : Scene M) (parent : Int) :
    (appendNode s parent).hierarchy.length = s.hierarchy.length + 1 := by
  simp [appendNode]

theorem hIdx_appendNode_lt [One M] (s : Scene M) (parent : Int) (n : Nat)
    (h : n < s.hierarchy.length) : hIdx (appendNode s parent) n = hIdx s n := by
  unfold appendNode hIdx
  exact getD_append_lt _ _ _ _ h

theorem hIdx_appendNode_self [One M] (s : Scene M) (parent : Int) :
    hIdx (appendNode s parent) s.hierarchy.length = { parent := parent } := by
  unfold appendNode hIdx
  exact getD_append_self _ _ _

theorem addNode_eq_root [One M] (s : Scene M) (parent level : Int) (h : ¬ parent > -1) :
    addNode s parent level =
      (modifyH (appendNode s parent) s.hierarchy.length
        (fun h => { h with level := level, nextSibling := -1, firstChild := -1 }),
       (s.hierarchy.length : Int)) := by
  simp only [addNode]
  rw [if_neg h]
  simp only [Int.toNat_natCast]

theorem addNode_eq_newChild [One M] (s : Scene M) (parent level : Int) (hp : parent > -1)
    (hfc : (hAt (appendNode s parent) parent).firstChild = -1) :
    addNode s parent level =
      (modifyH (modifyH (modifyH (appendNode s parent) parent.toNat
          (fun h => { h with firstChild := (s.hierarchy.length : Int) }))
          s.hierarchy.length (fun h => { h with lastSibling := (s.hierarchy.length : Int) }))
        s.hierarchy.length (fun h => { h with level := level, nextSibling := -1, firstChild := -1 }),
       (s.hierarchy.length : Int)) := by
  simp only [addNode]
  rw [if_pos hp, if_pos hfc]
  simp only [Int.toNat_natCast]

theorem addNode_eq_sibling [One M] (s : Scene M) (parent level c dest : Int) (hp : parent > -1)
    (hc : (hAt (appendNode s parent) parent).firstChild = c) (hcne : c ≠ -1)
    (hdest : dest = if (hAt (appendNode s parent) c).lastSibling ≤ -1
      then lastSiblingScan (appendNode s parent) (appendNode s parent).hierarchy.length c
      else (hAt (appendNode s parent) c).lastSibling) :
    addNode s parent level =
      (modifyH (modifyH (modifyH (appendNode s parent) dest.toNat
          (fun h => { h with nextSibling := (s.hierarchy.length : Int) }))
          c.toNat (fun h => { h with lastSibling := (s.hierarchy.length : Int) }))
        s.hierarchy.length (fun h => { h with level := level, nextSibling := -1, firstChild := -1 }),
       (s.hierarchy.length : Int)) := by
  subst hc
  subst hdest
  simp only [addNode]
  rw [if_pos hp, if_neg hcne]
  simp only [Int.toNat_natCast]

/-- Root of the `addNode` scenario: `addNode(empty, -1, 0)`. -/
def sceneRoot (M : Type) [One M] : Scene M × Int := addNode ({} : Scene M) (-1) 0

/-- First child: `addNode(-, 0, 1)`. -/
def sceneChild1 (M : Type) [One M] : Scene M × Int := addNode (sceneRoot M).1 0 1

/-- Second child: `addNode(-, 0, 1)`. -/
def sceneChild2 (M : Type) [One M] : Scene M × Int := addNode (sceneChild1 M).1 0 1

/-- C6.  `addNode(parent, level)` appends identity local and global transforms
and a hierarchy record with `firstChild = nextSibling = -1`, returning the
array length before the call as the new id; if the parent had no children its
`firstChild` is set to the new id, otherwise the new id is appended at the end
of the parent's sibling chain — through the cached `lastSibling` of the first
child when it is set (and in range), else through the linear scan, whose
result is the true end of the chain — and the cache on the first child is
refreshed; adding two children to a root yields
`root.firstChild = child1`, `child1.nextSibling = child2`,
`child2.nextSibling = -1`. -/
theorem addNode_spec [One M] (s : Scene M) (parent level : Int) (hv : ValidScene s)
    (hp : parent > -1 → parent.toNat < s.hierarchy.length) :
    ((addNode s parent level).2 = (s.hierarchy.length : Int)) ∧
    ((addNode s parent level).1.localTransform = s.localTransform ++ [1]) ∧
    ((addNode s parent level).1.globalTransform = s.globalTransform ++ [1]) ∧
    ((addNode s parent level).1.hierarchy.length = s.hierarchy.length + 1) ∧
    ((hIdx (addNode s parent level).1 s.hierarchy.length).parent = parent ∧
     (hIdx (addNode s parent level).1 s.hierarchy.length).firstChild = -1 ∧
     (hIdx (addNode s parent level).1 s.hierarchy.length).nextSibling = -1 ∧
     (hIdx (addNode s parent level).1 s.hierarchy.length).level = level) ∧
    (parent > -1 → (hIdx s parent.toNat).firstChild = -1 →
      (hIdx (addNode s parent level).1 parent.toNat).firstChild = (s.hierarchy.length : Int) ∧
      (hIdx (addNode s parent level).1 s.hierarchy.length).lastSibling =
        (s.hierarchy.length : Int)) ∧
    (parent > -1 → (hIdx s parent.toNat).firstChild ≠ -1 →
      ¬ (hIdx s (hIdx s parent.toNat).firstChild.toNat).lastSibling ≤ -1 →
      (hIdx s (hIdx s parent.toNat).firstChild.toNat).lastSibling.toNat < s.hierarchy.length →
      (hIdx (addNode s parent level).1
          (hIdx s (hIdx s parent.toNat).firstChild.toNat).lastSibling.toNat).nextSibling =
        (s.hierarchy.length : Int) ∧
      (hIdx (addNode s parent level).1
          (hIdx s parent.toNat).firstChild.toNat).lastSibling = (s.hierarchy.length : Int)) ∧
    (parent > -1 → (hIdx s parent.toNat).firstChild ≠ -1 →
      (hIdx s (hIdx s parent.toNat).firstChild.toNat).lastSibling ≤ -1 →
      (hAt s (lastSiblingScan s (s.hierarchy.length + 1)
          (hIdx s parent.toNat).firstChild)).nextSibling = -1 ∧
      (hIdx (addNode s parent level).1
          (lastSiblingScan s (s.hierarchy.length + 1)
            (hIdx s parent.toNat).firstChild).toNat).nextSibling = (s.hierarchy.length : Int) ∧
      (hIdx (addNode s parent level).1
          (hIdx s parent.toNat).firstChild.toNat).lastSibling = (s.hierarchy.length : Int)) ∧
    ((sceneRoot Int).2 = 0 ∧ (sceneChild1 Int).2 = 1 ∧ (sceneChild2 Int).2 = 2 ∧
     (hIdx (sceneChild2 Int).1 0).firstChild = 1 ∧
     (hIdx (sceneChild2 Int).1 1).nextSibling = 2 ∧
     (hIdx (sceneChild2 Int).1 1).lastSibling = 2 ∧
     (hIdx (sceneChild2 Int).1 2).nextSibling = -1) := by
  have hscenario : (sceneRoot Int).2 = 0 ∧ (sceneChild1 Int).2 = 1 ∧ (sceneChild2 Int).2 = 2 ∧
      (hIdx (sceneChild2 Int).1 0).firstChild = 1 ∧
      (hIdx (sceneChild2 Int).1 1).nextSibling = 2 ∧
      (hIdx (sceneChild2 Int).1 1).lastSibling = 2 ∧
      (hIdx (sceneChild2 Int).1 2).nextSibling = -1 := by
    refine ⟨by decide, by decide, by decide, by decide, by decide, by decide, by decide⟩
  by_cases hpar : parent > -1
  · have hplt : parent.toNat < s.hierarchy.length := hp hpar
    have hs1p : hAt (appendNode s parent) parent = hIdx s parent.toNat := by
      show hIdx (appendNode s parent) parent.toNat = _
      exact hIdx_appendNode_lt s parent parent.toNat hplt
    by_cases hfc : (hIdx s parent.toNat).firstChild = -1
    · -- parent without children
      have heq := addNode_eq_newChild s parent level hpar (by rw [hs1p]; exact hfc)
      rw [heq]
      have hpne : parent.toNat ≠ s.hierarchy.length := by omega
      have hlt1 : s.hierarchy.length < (modifyH (modifyH (appendNode s parent) parent.toNat
          (fun h => { h with firstChild := (s.hierarchy.length : Int) }))
          s.hierarchy.length (fun h => { h with lastSibling := (s.hierarchy.length : Int) })).hierarchy.length := by
        simp
      have hrecN : hIdx (modifyH (modifyH (modifyH (appendNode s parent) parent.toNat
          (fun h => { h with firstChild := (s.hierarchy.length : Int) }))
          s.hierarchy.length (fun h => { h with lastSibling := (s.hierarchy.length : Int) }))
          s.hierarchy.length (fun h => { h with level := level, nextSibling := -1, firstChild := -1 }))
          s.hierarchy.length =
          { parent := parent, firstChild := -1, nextSibling := -1,
            lastSibling := (s.hierarchy.length : Int), level := level } := by
        rw [hIdx_modifyH_self _ _ _ (by simp only [modifyH_length, appendNode_length]; omega)]
        rw [hIdx_modifyH_self _ _ _ (by simp only [modifyH_length, appendNode_length]; omega)]
        rw [hIdx_modifyH_ne _ _ _ _ hpne]
        rw [hIdx_appendNode_self]
      refine ⟨rfl, rfl, rfl, by simp, ?_, ?_, ?_, ?_, hscenario⟩
      · simp [hrecN]
      · intro _ _
        refine ⟨?_, by rw [hrecN]⟩
        rw [hIdx_modifyH_ne _ _ _ _ (Ne.symm hpne), hIdx_modifyH_ne _ _ _ _ (Ne.symm hpne)]
        rw [hIdx_modifyH_self _ _ _ (by simp only [modifyH_length, appendNode_length]; omega)]
      · intro _ hfc2 _ _
        exact absurd hfc hfc2
      · intro _ hfc2 _
        exact absurd hfc hfc2
    · -- parent already has children
      have hcfacts := (hv.2.2 parent.toNat hplt).2.2.2.1
      rcases hcfacts with h | ⟨hclt1, hclt2⟩
      · exact absurd h hfc
      have hc0 : 0 ≤ (hIdx s parent.toNat).firstChild := by omega
      have hcneN : (hIdx s parent.toNat).firstChild.toNat ≠ s.hierarchy.length := by omega
      have hs1c : hAt (appendNode s parent) (hIdx s parent.toNat).firstChild =
          hIdx s (hIdx s parent.toNat).firstChild.toNat :=
        hIdx_appendNode_lt s parent _ hclt2
      by_cases hcache : (hIdx s (hIdx s parent.toNat).firstChild.toNat).lastSibling ≤ -1
      · -- linear scan fallback
        have hscan : lastSiblingScan (appendNode s parent)
            (appendNode s parent).hierarchy.length (hIdx s parent.toNat).firstChild =
            lastSiblingScan s (s.hierarchy.length + 1) (hIdx s parent.toNat).firstChild := by
          rw [show (appendNode s parent).hierarchy.length = s.hierarchy.length + 1 by simp]
          exact lastSiblingScan_congr s (appendNode s parent)
            (fun n hn => hIdx_appendNode_lt s parent n hn) hv _ _ hc0 hclt2
        obtain ⟨hd0, hdlt, hdend⟩ := lastSiblingScan_end s hv (s.hierarchy.length + 1)
          (hIdx s parent.toNat).firstChild hc0 hclt2 (by omega)
        have hdneN : (lastSiblingScan s (s.hierarchy.length + 1)
            (hIdx s parent.toNat).firstChild).toNat ≠ s.hierarchy.length := by omega
        have heq := addNode_eq_sibling s parent level (hIdx s parent.toNat).firstChild
          (lastSiblingScan s (s.hierarchy.length + 1) (hIdx s parent.toNat).firstChild)
          hpar (by rw [hs1p]) (by omega)
          (by rw [hs1c, if_pos hcache, hscan])
        rw [heq]
        have hparfield : (hIdx (modifyH (appendNode s parent)
            (lastSiblingScan s (s.hierarchy.length + 1) (hIdx s parent.toNat).firstChild).toNat
            (fun h => { h with nextSibling := (s.hierarchy.length : Int) }))
            s.hierarchy.length).parent = parent := by
          rw [hIdx_modifyH_ne _ _ _ _ hdneN, hIdx_appendNode_self]
        refine ⟨rfl, rfl, rfl, by simp, ?_, ?_, ?_, ?_, hscenario⟩
        · rw [hIdx_modifyH_self _ _ _ (by simp only [modifyH_length, appendNode_length]; omega), hIdx_modifyH_ne _ _ _ _ hcneN]
          exact ⟨hparfield, rfl, rfl, rfl⟩
        · intro _ hfc2
          exact absurd hfc2 (by simpa using hfc)
        · intro _ _ hcache2 _
          exact absurd hcache hcache2
        · intro _ _ _
          refine ⟨hdend, ?_, ?_⟩
          · rw [hIdx_modifyH_ne _ _ _ _ (by omega : s.hierarchy.length ≠ _)]
            by_cases hdc : (hIdx s parent.toNat).firstChild.toNat =
                (lastSiblingScan s (s.hierarchy.length + 1) (hIdx s parent.toNat).firstChild).toNat
            · rw [← hdc]
              rw [hIdx_modifyH_self _ _ _ (by simp only [modifyH_length, appendNode_length]; omega)]
              rw [hIdx_modifyH_self _ _ _ (by simp only [modifyH_length, appendNode_length]; omega)]
            · rw [hIdx_modifyH_ne _ _ _ _ hdc]
              rw [hIdx_modifyH_self _ _ _ (by simp only [modifyH_length, appendNode_length]; omega)]
          · rw [hIdx_modifyH_ne _ _ _ _ (by omega : s.hierarchy.length ≠ _)]
            rw [hIdx_modifyH_self _ _ _ (by simp only [modifyH_length, appendNode_length]; omega)]
      · -- cached lastSibling
        have heq := addNode_eq_sibling s parent level (hIdx s parent.toNat).firstChild
          (hIdx s (hIdx s parent.toNat).firstChild.toNat).lastSibling
          hpar (by rw [hs1p]) (by omega) (by rw [hs1c, if_neg hcache])
        rw [heq]
        have hparfield : (hIdx (modifyH (appendNode s parent)
            (hIdx s (hIdx s parent.toNat).firstChild.toNat).lastSibling.toNat
            (fun h => { h with nextSibling := (s.hierarchy.length : Int) }))
            s.hierarchy.length).parent = parent := by
          by_cases hdN : (hIdx s (hIdx s parent.toNat).firstChild.toNat).lastSibling.toNat =
              s.hierarchy.length
          · rw [hdN, hIdx_modifyH_self _ _ _ (by simp only [modifyH_length, appendNode_length]; omega), hIdx_appendNode_self]
          · rw [hIdx_modifyH_ne _ _ _ _ hdN, hIdx_appendNode_self]
        refine ⟨rfl, rfl, rfl, by simp, ?_, ?_, ?_, ?_, hscenario⟩
        · rw [hIdx_modifyH_self _ _ _ (by simp only [modifyH_length, appendNode_length]; omega), hIdx_modifyH_ne _ _ _ _ hcneN]
          exact ⟨hparfield, rfl, rfl, rfl⟩
        · intro _ hfc2
          exact absurd hfc2 (by simpa using hfc)
        · intro _ _ _ hdrange
          have hdneN : (hIdx s (hIdx s parent.toNat).firstChild.toNat).lastSibling.toNat ≠
              s.hierarchy.length := by omega
          constructor
          · rw [hIdx_modifyH_ne _ _ _ _ (Ne.symm hdneN)]
            by_cases hdc : (hIdx s parent.toNat).firstChild.toNat =
                (hIdx s (hIdx s parent.toNat).firstChild.toNat).lastSibling.toNat
            · rw [← hdc]
              rw [hIdx_modifyH_self _ _ _ (by simp only [modifyH_length, appendNode_length]; omega)]
              rw [hIdx_modifyH_self _ _ _ (by simp only [modifyH_length, appendNode_length]; omega)]
            · rw [hIdx_modifyH_ne _ _ _ _ hdc]
              rw [hIdx_modifyH_self _ _ _ (by simp only [modifyH_length, appendNode_length]; omega)]
          · rw [hIdx_modifyH_ne _ _ _ _ (Ne.symm hcneN)]
            rw [hIdx_modifyH_self _ _ _ (by simp only [modifyH_length, appendNode_length]; omega)]
        · intro _ _ hcache2
          exact absurd hcache2 hcache
  · -- no parent
    have heq := addNode_eq_root s parent level hpar
    rw [heq]
    refine ⟨rfl, rfl, rfl, by simp, ?_, ?_, ?_, ?_, hscenario⟩
    · rw [hIdx_modifyH_self _ _ _ (by simp only [modifyH_length, appendNode_length]; omega), hIdx_appendNode_self]
      exact ⟨rfl, rfl, rfl, rfl⟩
    · intro hcon _
      exact absurd hcon hpar
    · intro hcon _ _ _
      exact absurd hcon hpar
    · intro hcon _ _
      exact absurd hcon hpar

/-- Witness for `addNode_spec`: adding a node under parent `1` of the valid
3-chain returns the old array length `3` as the new id. -/
theorem addNode_spec_witness :
    ValidScene chainScene ∧ (addNode chainScene 1 2).2 = 3 :=
  ⟨by decide, (addNode_spec chainScene 1 2 (by decide) (by decide)).1⟩

/-- Mesh descriptor fields consumed by the draw-command assembly and the mesh
merge.  The `Mesh` struct itself is declared by the Chapter 5 mesh-data code,
which is not among this repository's sources.  Modelled from the spec:
"Mesh descriptor (external, supplied by asset import): index/vertex stream
offsets, index count, local-space bounding box"; `indexCount` stands for
`getLODIndicesCount(0)`. -/
structure Mesh where
  indexCount : Nat := 0
  indexOffset : Nat := 0
  vertexOffset : Nat := 0
  materialID : Nat := 0
  deriving DecidableEq

/-- `VkDrawIndexedIndirectCommand` / the book's `DrawIndexedIndirectCommand`:
`{count, instanceCount, firstIndex, baseVertex, baseInstance}`. -/
structure DrawIndexedIndirectCommand where
  count : Nat := 0
  instanceCount : Nat := 0
  firstIndex : Nat := 0
  baseVertex : Nat := 0
  baseInstance : Nat := 0
  deriving DecidableEq

/-- `DrawData { transformId, materialId }`, indexed by `baseInstance`. -/
structure DrawData where
  transformId : Nat := 0
  materialId : Nat := 0
  deriving DecidableEq

/-- The VKMesh draw-command assembly loop over `scene.meshForNode`
(`*cmd++ = {...}; *dd++ = {...}` with a running `ddIndex`). -/
def buildDrawLoop (meshes : List Mesh) :
    Nat → List (Nat × Nat) → List DrawIndexedIndirectCommand × List DrawData
  | _, [] => ([], [])
  | ddIndex, p :: rest =>
    let mesh := meshes.getD p.2 {}
    let tail := buildDrawLoop meshes (ddIndex + 1) rest
    ({ count := mesh.indexCount, instanceCount := 1, firstIndex := mesh.indexOffset,
       baseVertex := mesh.vertexOffset, baseInstance := ddIndex } :: tail.1,
     { transformId := p.1, materialId := mesh.materialID } :: tail.2)

/-- Draw-command assembly: one `DrawIndexedIndirectCommand` and one `DrawData`
per `(nodeId, meshId)` pair of `meshForNode`, in iteration order. -/
def buildDrawCommands (meshes : List Mesh) (meshForNode : List (Nat × Nat)) :
    List DrawIndexedIndirectCommand × List DrawData :=
  buildDrawLoop meshes 0 meshForNode

/-- Association-list lookup for the sparse node maps. -/
def mapLookup (l : List (Nat × Nat)) (k : Nat) : Option Nat :=
  match l.find? (fun p => p.1 == k) with
  | some p => some p.2
  | none => none

/-- 3-component vector with exact rational coordinates (model of `glm::vec3`). -/
structure Vec3 where
  x : ℚ := 0
  y : ℚ := 0
  z : ℚ := 0
  deriving DecidableEq

/-- 4-component rational vector (model of `glm::vec4`). -/
abbrev Vec4 : Type := Fin 4 → ℚ

def mkVec4 (x y z w : ℚ) : Vec4 := ![x, y, z, w]

/-- `glm::dot` on `vec4`. -/
def dotQ (p q : Vec4) : ℚ := p 0 * q 0 + p 1 * q 1 + p 2 * q 2 + p 3 * q 3

/-- Axis-aligned bounding box (shared/UtilsMath.h `BoundingBox`). -/
structure BoundingBox where
  min_ : Vec3 := {}
  max_ : Vec3 := {}
  deriving DecidableEq

/-- `getFrustumPlanes`: after `vp = transpose(vp)`, `vp[i]` is row `i` of the
original matrix, and the planes are row-combinations
`row3 ± row0/1/2` (left, right, bottom, top, near, far). -/
def getFrustumPlanes (vp : Matrix (Fin 4) (Fin 4) ℚ) : Fin 6 → Vec4 :=
  ![ (fun j => vp 3 j + vp 0 j), (fun j => vp 3 j - vp 0 j),
     (fun j => vp 3 j + vp 1 j), (fun j => vp 3 j - vp 1 j),
     (fun j => vp 3 j + vp 2 j), (fun j => vp 3 j - vp 2 j) ]

/-- The 8 NDC-cube corners of `getFrustumCorners`, in source order. -/
def ndcCorners : Fin 8 → Vec4 :=
  ![ mkVec4 (-1) (-1) (-1) 1, mkVec4 1 (-1) (-1) 1,
     mkVec4 1 1 (-1) 1, mkVec4 (-1) 1 (-1) 1,
     mkVec4 (-1) (-1) 1 1, mkVec4 1 (-1) 1 1,
     mkVec4 1 1 1 1, mkVec4 (-1) 1 1 1 ]

/-- Computable 4x4 matrix inverse via the adjugate, the exact-arithmetic
counterpart of `glm::inverse`. -/
def inv4 (A : Matrix (Fin 4) (Fin 4) ℚ) : Matrix (Fin 4) (Fin 4) ℚ :=
  A.det⁻¹ • A.adjugate

/-- `getFrustumCorners`: unproject the 8 NDC corners through `inverse(vp)` and
divide by `w` (`points[i] = q / q.w`). -/
def getFrustumCorners (vp : Matrix (Fin 4) (Fin 4) ℚ) : Fin 8 → Vec4 :=
  fun i =>
    let q := Matrix.mulVec (inv4 vp) (ndcCorners i)
    fun j => q j / q 3

/-- The 8 corners of an AABB in the order the phase-1 loop evaluates them. -/
def boxCorner (b : BoundingBox) : Fin 8 → Vec4 :=
  ![ mkVec4 b.min_.x b.min_.y b.min_.z 1, mkVec4 b.max_.x b.min_.y b.min_.z 1,
     mkVec4 b.min_.x b.max_.y b.min_.z 1, mkVec4 b.max_.x b.max_.y b.min_.z 1,
     mkVec4 b.min_.x b.min_.y b.max_.z 1, mkVec4 b.max_.x b.min_.y b.max_.z 1,
     mkVec4 b.min_.x b.max_.y b.max_.z 1, mkVec4 b.max_.x b.max_.y b.max_.z 1 ]

/-- `isBoxInFrustum`: phase 1 rejects when all 8 box corners are strictly on
the negative side of one frustum plane (`r == 8`); phase 2 rejects when all 8
frustum corners lie strictly beyond one box face; otherwise visible. -/
def isBoxInFrustum (frPlanes : Fin 6 → Vec4) (frCorners : Fin 8 → Vec4)
    (b : BoundingBox) : Bool :=
  if (List.finRange 6).any (fun i =>
      (List.finRange 8).countP (fun j => decide (dotQ (frPlanes i) (boxCorner b j) < 0)) = 8) then
    false
  else if (List.finRange 8).countP (fun j => decide (frCorners j 0 > b.max_.x)) = 8 then false
  else if (List.finRange 8).countP (fun j => decide (frCorners j 0 < b.min_.x)) = 8 then false
  else if (List.finRange 8).countP (fun j => decide (frCorners j 1 > b.max_.y)) = 8 then false
  else if (List.finRange 8).countP (fun j => decide (frCorners j 1 < b.min_.y)) = 8 then false
  else if (List.finRange 8).countP (fun j => decide (frCorners j 2 > b.max_.z)) = 8 then false
  else if (List.finRange 8).countP (fun j => decide (frCorners j 2 < b.min_.z)) = 8 then false
  else true

/-- The buffers the culling pass can see: the indirect command array and the
parallel draw-data array. -/
structure RenderBuffers where
  drawCommands : List DrawIndexedIndirectCommand := []
  drawData : List DrawData := []
  deriving DecidableEq

/-- The CPU culling loop body over `scene.meshForNode` with the running `cmd`
pointer: per pair, transform the mesh box by the node's global transform
(`getTransformed` lives in the external shared math library and is abstracted
by `xform`) and write only `instanceCount`. -/
def cullWriteCPU (M : Type) [One M] (frPlanes : Fin 6 → Vec4) (frCorners : Fin 8 → Vec4)
    (boxes : List BoundingBox) (global : List M) (xform : BoundingBox → M → BoundingBox) :
    List (Nat × Nat) → List DrawIndexedIndirectCommand → List DrawIndexedIndirectCommand
  | [], cmds => cmds
  | _ :: _, [] => []
  | p :: ps, c :: cmds =>
    let box := xform (boxes.getD p.2 {}) (global.getD p.1 1)
    { c with instanceCount := if isBoxInFrustum frPlanes frCorners box then 1 else 0 } ::
      cullWriteCPU M frPlanes frCorners boxes global xform ps cmds

/-- One CPU culling pass (Chapter11/01_CullingCPU render loop). -/
def cullCPU (M : Type) [One M] (frPlanes : Fin 6 → Vec4) (frCorners : Fin 8 → Vec4)
    (pairs : List (Nat × Nat)) (boxes : List BoundingBox) (global : List M)
    (xform : BoundingBox → M → BoundingBox) (rb : RenderBuffers) : RenderBuffers :=
  { rb with drawCommands :=
      cullWriteCPU M frPlanes frCorners boxes global xform pairs rb.drawCommands }

/-- The per-lane GPU compute-shader body: for `idx < numShapesToCull`, fetch
the pre-transformed box through `drawData[dc[idx].baseInstance].transformId`
and write only `instanceCount` (the `numVisibleMeshes` atomic counter is not
modelled; it is not part of the draw buffers). -/
def cullWriteGPU (frPlanes : Fin 6 → Vec4) (frCorners : Fin 8 → Vec4)
    (boxes : List BoundingBox) (dd : List DrawData) (numShapes : Nat) :
    Nat → List DrawIndexedIndirectCommand → List DrawIndexedIndirectCommand
  | _, [] => []
  | idx, c :: cmds =>
    (if idx < numShapes then
      let box := boxes.getD (dd.getD c.baseInstance {}).transformId {}
      { c with instanceCount := if isBoxInFrustum frPlanes frCorners box then 1 else 0 }
    else c) :: cullWriteGPU frPlanes frCorners boxes dd numShapes (idx + 1) cmds

/-- One GPU culling dispatch (Chapter 11 compute shader `main`). -/
def cullGPU (frPlanes : Fin 6 → Vec4) (frCorners : Fin 8 → Vec4)
    (boxes : List BoundingBox) (numShapes : Nat) (rb : RenderBuffers) : RenderBuffers :=
  { rb with drawCommands :=
      cullWriteGPU frPlanes frCorners boxes rb.drawData numShapes 0 rb.drawCommands }

theorem buildDrawLoop_lengths (meshes : List Mesh) :
    ∀ (pairs : List (Nat × Nat)) (d : Nat),
      (buildDrawLoop meshes d pairs).1.length = pairs.length ∧
      (buildDrawLoop meshes d pairs).2.length = pairs.length := by
  intro pairs
  induction pairs with
  | nil => intro d; exact ⟨rfl, rfl⟩
  | cons p rest ih =>
    intro d
    obtain ⟨h1, h2⟩ := ih (d + 1)
    exact ⟨by simp [buildDrawLoop, h1], by simp [buildDrawLoop, h2]⟩

theorem buildDrawLoop_getD (meshes : List Mesh) :
    ∀ (pairs : List (Nat × Nat)) (d k : Nat), k < pairs.length →
      (buildDrawLoop meshes d pairs).1.getD k {} =
        { count := (meshes.getD (pairs.getD k (0, 0)).2 {}).indexCount,
          instanceCount := 1,
          firstIndex := (meshes.getD (pairs.getD k (0, 0)).2 {}).indexOffset,
          baseVertex := (meshes.getD (pairs.getD k (0, 0)).2 {}).vertexOffset,
          baseInstance := d + k } ∧
      (buildDrawLoop meshes d pairs).2.getD k {} =
        { transformId := (pairs.getD k (0, 0)).1,
          materialId := (meshes.getD (pairs.getD k (0, 0)).2 {}).materialID } := by
  intro pairs
  induction pairs with
  | nil => intro d k hk; simp at hk
  | cons p rest ih =>
    intro d k hk
    cases k with
    | zero => exact ⟨rfl, rfl⟩
    | succ k =>
      obtain ⟨h1, h2⟩ := ih (d + 1) k (by simpa using hk)
      constructor
      · show (buildDrawLoop meshes (d + 1) rest).1.getD k {} = _
        rw [h1]
        have : d + 1 + k = d + (k + 1) := by omega
        rw [this]
        rfl
      · show (buildDrawLoop meshes (d + 1) rest).2.getD k {} = _
        rw [h2]
        rfl

/-- C3, amended.  For every `(nodeId, meshId)` pair of `meshForNode`, the
assembly emits at that pair's position one `DrawIndexedIndirectCommand` with
count / firstIndex / baseVertex taken from the mesh descriptor,
`instanceCount = 1` and `baseInstance` equal to the position, and one
`DrawData` with `transformId = nodeId` — but `materialId` comes from the mesh
descriptor's `materialID`, not from `materialForNode[nodeId]` (the original
claim is refuted by `buildDrawCommands_material_cex`). -/
theorem buildDrawCommands_spec (meshes : List Mesh) (meshForNode : List (Nat × Nat)) :
    (buildDrawCommands meshes meshForNode).1.length = meshForNode.length ∧
    (buildDrawCommands meshes meshForNode).2.length = meshForNode.length ∧
    (∀ k, k < meshForNode.length →
      (buildDrawCommands meshes meshForNode).1.getD k {} =
        { count := (meshes.getD (meshForNode.getD k (0, 0)).2 {}).indexCount,
          instanceCount := 1,
          firstIndex := (meshes.getD (meshForNode.getD k (0, 0)).2 {}).indexOffset,
          baseVertex := (meshes.getD (meshForNode.getD k (0, 0)).2 {}).vertexOffset,
          baseInstance := k } ∧
      (buildDrawCommands meshes meshForNode).2.getD k {} =
        { transformId := (meshForNode.getD k (0, 0)).1,
          materialId := (meshes.getD (meshForNode.getD k (0, 0)).2 {}).materialID }) := by
  obtain ⟨h1, h2⟩ := buildDrawLoop_lengths meshes meshForNode 0
  refine ⟨h1, h2, ?_⟩
  intro k hk
  obtain ⟨g1, g2⟩ := buildDrawLoop_getD meshes meshForNode 0 k hk
  rw [show (0 : Nat) + k = k from by omega] at g1
  exact ⟨g1, g2⟩

/-- The single-mesh inputs of the material counterexample: mesh 0 carries
`materialID = 7` while `materialForNode` maps node 0 to material 3. -/
def cexMeshes : List Mesh :=
  [{ indexCount := 3, indexOffset := 11, vertexOffset := 22, materialID := 7 }]

/-- `materialForNode` of the counterexample scene. -/
def cexMaterialForNode : List (Nat × Nat) := [(0, 3)]

/-- C3 counterexample: the emitted `DrawData.materialId` is the mesh
descriptor's `materialID` (7), not `materialForNode[nodeId]` (3). -/
theorem buildDrawCommands_material_cex :
    ((buildDrawCommands cexMeshes [(0, 0)]).2.getD 0 {}).materialId = 7 ∧
    mapLookup cexMaterialForNode 0 = some 3 ∧ (7 : Nat) ≠ 3 :=
  ⟨by decide, by decide, by decide⟩

/-- Witness for `buildDrawCommands_spec` at the concrete one-pair input. -/
theorem buildDrawCommands_spec_witness :
    (0 : Nat) < ([((0 : Nat), (0 : Nat))] : List (Nat × Nat)).length ∧
    (buildDrawCommands cexMeshes [(0, 0)]).2.getD 0 {} =
      { transformId := 0, materialId := 7 } :=
  ⟨by decide, ((buildDrawCommands_spec cexMeshes [(0, 0)]).2.2 0 (by decide)).2⟩

theorem cullWriteCPU_spec (M : Type) [One M] (frPlanes : Fin 6 → Vec4)
    (frCorners : Fin 8 → Vec4) (boxes : List BoundingBox) (global : List M)
    (xform : BoundingBox → M → BoundingBox) :
    ∀ (cmds : List DrawIndexedIndirectCommand) (pairs : List (Nat × Nat)),
      (cullWriteCPU M frPlanes frCorners boxes global xform pairs cmds).length = cmds.length ∧
      ∀ k, k < cmds.length →
        ((cullWriteCPU M frPlanes frCorners boxes global xform pairs cmds).getD k {}).count =
          (cmds.getD k {}).count ∧
        ((cullWriteCPU M frPlanes frCorners boxes global xform pairs cmds).getD k {}).firstIndex =
          (cmds.getD k {}).firstIndex ∧
        ((cullWriteCPU M frPlanes frCorners boxes global xform pairs cmds).getD k {}).baseVertex =
          (cmds.getD k {}).baseVertex ∧
        ((cullWriteCPU M frPlanes frCorners boxes global xform pairs cmds).getD k {}).baseInstance =
          (cmds.getD k {}).baseInstance ∧
        (k < pairs.length →
          ((cullWriteCPU M frPlanes frCorners boxes global xform pairs cmds).getD k {}).instanceCount =
            if isBoxInFrustum frPlanes frCorners
                (xform (boxes.getD (pairs.getD k (0, 0)).2 {})
                  (global.getD (pairs.getD k (0, 0)).1 1)) then 1 else 0) ∧
        (pairs.length ≤ k →
          ((cullWriteCPU M frPlanes frCorners boxes global xform pairs cmds).getD k {}).instanceCount =
            (cmds.getD k {}).instanceCount) := by
  intro cmds
  induction cmds with
  | nil =>
    intro pairs
    cases pairs with
    | nil => exact ⟨rfl, fun k hk => by simp at hk⟩
    | cons p ps => exact ⟨rfl, fun k hk => by simp at hk⟩
  | cons c cs ih =>
    intro pairs
    cases pairs with
    | nil =>
      refine ⟨rfl, ?_⟩
      intro k hk
      exact ⟨rfl, rfl, rfl, rfl, fun h => by simp at h, fun _ => rfl⟩
    | cons p ps =>
      obtain ⟨hlen, hspec⟩ := ih ps
      refine ⟨by simpa [cullWriteCPU] using hlen, ?_⟩
      intro k hk
      cases k with
      | zero =>
        refine ⟨rfl, rfl, rfl, rfl, fun _ => rfl, fun h => by simp at h⟩
      | succ k =>
        obtain ⟨a1, a2, a3, a4, a5, a6⟩ := hspec k (by simpa using hk)
        exact ⟨a1, a2, a3, a4, fun h => a5 (by simpa using h), fun h => a6 (by simpa using h)⟩

theorem cullWriteGPU_spec (frPlanes : Fin 6 → Vec4) (frCorners : Fin 8 → Vec4)
    (boxes : List BoundingBox) (dd : List DrawData) (numShapes : Nat) :
    ∀ (cmds : List DrawIndexedIndirectCommand) (idx : Nat),
      (cullWriteGPU frPlanes frCorners boxes dd numShapes idx cmds).length = cmds.length ∧
      ∀ k, k < cmds.length →
        ((cullWriteGPU frPlanes frCorners boxes dd numShapes idx cmds).getD k {}).count =
          (cmds.getD k {}).count ∧
        ((cullWriteGPU frPlanes frCorners boxes dd numShapes idx cmds).getD k {}).firstIndex =
          (cmds.getD k {}).firstIndex ∧
        ((cullWriteGPU frPlanes frCorners boxes dd numShapes idx cmds).getD k {}).baseVertex =
          (cmds.getD k {}).baseVertex ∧
        ((cullWriteGPU frPlanes frCorners boxes dd numShapes idx cmds).getD k {}).baseInstance =
          (cmds.getD k {}).baseInstance ∧
        (idx + k < numShapes →
          ((cullWriteGPU frPlanes frCorners boxes dd numShapes idx cmds).getD k {}).instanceCount =
            if isBoxInFrustum frPlanes frCorners
                (boxes.getD (dd.getD (cmds.getD k {}).baseInstance {}).transformId {})
              then 1 else 0) ∧
        (numShapes ≤ idx + k →
          ((cullWriteGPU frPlanes frCorners boxes dd numShapes idx cmds).getD k {}).instanceCount =
            (cmds.getD k {}).instanceCount) := by
  intro cmds
  induction cmds with
  | nil => intro idx; exact ⟨rfl, fun k hk => by simp at hk⟩
  | cons c cs ih =>
    intro idx
    obtain ⟨hlen, hspec⟩ := ih (idx + 1)
    refine ⟨by simpa [cullWriteGPU] using hlen, ?_⟩
    intro k hk
    cases k with
    | zero =>
      by_cases hidx : idx < numShapes
      · refine ⟨?_, ?_, ?_, ?_, fun _ => ?_, fun h => by omega⟩ <;>
          simp [cullWriteGPU, if_pos hidx]
      · refine ⟨?_, ?_, ?_, ?_, fun h => by omega, fun _ => ?_⟩ <;>
          simp [cullWriteGPU, if_neg hidx]
    | succ k =>
      obtain ⟨a1, a2, a3, a4, a5, a6⟩ := hspec k (by simpa using hk)
      refine ⟨a1, a2, a3, a4, fun h => ?_, fun h => ?_⟩
      · exact a5 (by omega)
      · exact a6 (by omega)

/-- C8.  A culling pass — CPU loop or GPU dispatch — writes only the
`instanceCount` field of each draw command (1 when `isBoxInFrustum` holds,
0 otherwise); `count`, `firstIndex`, `baseVertex`, `baseInstance`, the
`DrawData` array and the number of command slots are unchanged, and a slot
beyond the culled range keeps its old `instanceCount`. -/
theorem culling_updates_only_instanceCount (M : Type) [One M] (frPlanes : Fin 6 → Vec4)
    (frCorners : Fin 8 → Vec4) (pairs : List (Nat × Nat)) (boxes : List BoundingBox)
    (global : List M) (xform : BoundingBox → M → BoundingBox) (numShapes : Nat)
    (rb : RenderBuffers) :
    ((cullCPU M frPlanes frCorners pairs boxes global xform rb).drawData = rb.drawData ∧
     (cullCPU M frPlanes frCorners pairs boxes global xform rb).drawCommands.length =
       rb.drawCommands.length ∧
     ∀ k, k < rb.drawCommands.length →
       ((cullCPU M frPlanes frCorners pairs boxes global xform rb).drawCommands.getD k {}).count =
         (rb.drawCommands.getD k {}).count ∧
       ((cullCPU M frPlanes frCorners pairs boxes global xform rb).drawCommands.getD k {}).firstIndex =
         (rb.drawCommands.getD k {}).firstIndex ∧
       ((cullCPU M frPlanes frCorners pairs boxes global xform rb).drawCommands.getD k {}).baseVertex =
         (rb.drawCommands.getD k {}).baseVertex ∧
       ((cullCPU M frPlanes frCorners pairs boxes global xform rb).drawCommands.getD k {}).baseInstance =
         (rb.drawCommands.getD k {}).baseInstance ∧
       (k < pairs.length →
         ((cullCPU M frPlanes frCorners pairs boxes global xform rb).drawCommands.getD k {}).instanceCount =
           if isBoxInFrustum frPlanes frCorners
               (xform (boxes.getD (pairs.getD k (0, 0)).2 {})
                 (global.getD (pairs.getD k (0, 0)).1 1)) then 1 else 0) ∧
       (pairs.length ≤ k →
         ((cullCPU M frPlanes frCorners pairs boxes global xform rb).drawCommands.getD k {}).instanceCount =
           (rb.drawCommands.getD k {}).instanceCount)) ∧
    ((cullGPU frPlanes frCorners boxes numShapes rb).drawData = rb.drawData ∧
     (cullGPU frPlanes frCorners boxes numShapes rb).drawCommands.length =
       rb.drawCommands.length ∧
     ∀ k, k < rb.drawCommands.length →
       ((cullGPU frPlanes frCorners boxes numShapes rb).drawCommands.getD k {}).count =
         (rb.drawCommands.getD k {}).count ∧
       ((cullGPU frPlanes frCorners boxes numShapes rb).drawCommands.getD k {}).firstIndex =
         (rb.drawCommands.getD k {}).firstIndex ∧
       ((cullGPU frPlanes frCorners boxes numShapes rb).drawCommands.getD k {}).baseVertex =
         (rb.drawCommands.getD k {}).baseVertex ∧
       ((cullGPU frPlanes frCorners boxes numShapes rb).drawCommands.getD k {}).baseInstance =
         (rb.drawCommands.getD k {}).baseInstance ∧
       (k < numShapes →
         ((cullGPU frPlanes frCorners boxes numShapes rb).drawCommands.getD k {}).instanceCount =
           if isBoxInFrustum frPlanes frCorners
               (boxes.getD (rb.drawData.getD (rb.drawCommands.getD k {}).baseInstance {}).transformId {})
             then 1 else 0) ∧
       (numShapes ≤ k →
         ((cullGPU frPlanes frCorners boxes numShapes rb).drawCommands.getD k {}).instanceCount =
           (rb.drawCommands.getD k {}).instanceCount)) := by
  constructor
  · obtain ⟨hlen, hspec⟩ := cullWriteCPU_spec M frPlanes frCorners boxes global xform
      rb.drawCommands pairs
    exact ⟨rfl, hlen, hspec⟩
  · obtain ⟨hlen, hspec⟩ := cullWriteGPU_spec frPlanes frCorners boxes rb.drawData numShapes
      rb.drawCommands 0
    refine ⟨rfl, hlen, ?_⟩
    intro k hk
    obtain ⟨a1, a2, a3, a4, a5, a6⟩ := hspec k hk
    exact ⟨a1, a2, a3, a4, fun h => a5 (by omega), fun h => a6 (by omega)⟩

/-- Concrete frustum planes for the culling witness. -/
def cexPlanes : Fin 6 → Vec4 := fun _ => mkVec4 0 0 0 1

/-- Concrete frustum corners for the culling witness. -/
def cexCorners : Fin 8 → Vec4 := fun _ => mkVec4 0 0 0 1

/-- One-command render buffers for the culling witness. -/
def cexRB : RenderBuffers :=
  { drawCommands := [{ count := 3, instanceCount := 5, firstIndex := 2, baseVertex := 4,
                       baseInstance := 0 }],
    drawData := [{ transformId := 0, materialId := 0 }] }

/-- Witness for `culling_updates_only_instanceCount` at a one-command buffer. -/
theorem culling_updates_only_instanceCount_witness :
    (0 : Nat) < cexRB.drawCommands.length ∧
    ((cullCPU Int cexPlanes cexCorners [(0, 0)] [{}] [1] (fun b _ => b)
        cexRB).drawCommands.getD 0 {}).baseInstance =
      (cexRB.drawCommands.getD 0 {}).baseInstance :=
  ⟨by decide,
   ((culling_updates_only_instanceCount Int cexPlanes cexCorners [(0, 0)] [{}] [1]
      (fun b _ => b) 1 cexRB).1.2.2 0 (by decide)).2.2.2.1⟩

/-- The `w` component produced by unprojecting NDC corner `j` (before the
divide); positive for every nondegenerate perspective or orthographic
view-projection matrix. -/
def wOf (vp : Matrix (Fin 4) (Fin 4) ℚ) (j : Fin 8) : ℚ :=
  Matrix.mulVec (inv4 vp) (ndcCorners j) 3

/-- Componentwise containment of a (w = 1) point in an AABB. -/
def InBox (b : BoundingBox) (v : Vec4) : Prop :=
  b.min_.x ≤ v 0 ∧ v 0 ≤ b.max_.x ∧ b.min_.y ≤ v 1 ∧ v 1 ≤ b.max_.y ∧
  b.min_.z ≤ v 2 ∧ v 2 ≤ b.max_.z

instance (b : BoundingBox) (v : Vec4) : Decidable (InBox b v) := by
  unfold InBox
  infer_instance

theorem inv4_mul (A : Matrix (Fin 4) (Fin 4) ℚ) (h : A.det ≠ 0) : A * inv4 A = 1 := by
  unfold inv4
  rw [Matrix.mul_smul, Matrix.mul_adjugate, smul_smul, inv_mul_cancel₀ h, one_smul]

theorem mulVec_getFrustumCorners (vp : Matrix (Fin 4) (Fin 4) ℚ) (hdet : vp.det ≠ 0)
    (j : Fin 8) (k : Fin 4) :
    Matrix.mulVec vp (getFrustumCorners vp j) k = ndcCorners j k / wOf vp j := by
  have hvpq : Matrix.mulVec vp (Matrix.mulVec (inv4 vp) (ndcCorners j)) = ndcCorners j := by
    rw [Matrix.mulVec_mulVec, inv4_mul vp hdet, Matrix.one_mulVec]
  have hcor : getFrustumCorners vp j =
      (wOf vp j)⁻¹ • Matrix.mulVec (inv4 vp) (ndcCorners j) := by
    funext m
    show Matrix.mulVec (inv4 vp) (ndcCorners j) m / Matrix.mulVec (inv4 vp) (ndcCorners j) 3 = _
    rw [Pi.smul_apply]
    rw [smul_eq_mul, div_eq_inv_mul]
    rfl
  rw [hcor, Matrix.mulVec_smul, hvpq]
  rw [Pi.smul_apply, smul_eq_mul, div_eq_inv_mul]

theorem dotQ_row (vp : Matrix (Fin 4) (Fin 4) ℚ) (r : Fin 4) (q : Vec4) :
    dotQ (fun k => vp r k) q = Matrix.mulVec vp q r := by
  unfold dotQ
  rw [Matrix.mulVec, Matrix.dotProduct]
  rw [Fin.sum_univ_four]

/-- Every frustum corner lies on the non-negative side of every frustum plane
(given `w > 0`): the defining compatibility of `getFrustumPlanes` and
`getFrustumCorners`. -/
theorem dotQ_plane_corner_nonneg (vp : Matrix (Fin 4) (Fin 4) ℚ) (hdet : vp.det ≠ 0)
    (hw : ∀ j, 0 < wOf vp j) (i : Fin 6) (j : Fin 8) :
    0 ≤ dotQ (getFrustumPlanes vp i) (getFrustumCorners vp j) := by
  have hndc : ∀ (k : Fin 4), ndcCorners j k = 1 ∨ ndcCorners j k = -1 := by
    revert j
    decide
  have hndc3 : ndcCorners j 3 = 1 := by
    revert j
    decide
  have hplus : ∀ (r : Fin 4), dotQ (fun k => vp 3 k + vp r k) (getFrustumCorners vp j) =
      (ndcCorners j 3 + ndcCorners j r) / wOf vp j := by
    intro r
    have h3 := dotQ_row vp 3 (getFrustumCorners vp j)
    have hr := dotQ_row vp r (getFrustumCorners vp j)
    have hexp : dotQ (fun k => vp 3 k + vp r k) (getFrustumCorners vp j) =
        dotQ (fun k => vp 3 k) (getFrustumCorners vp j) +
        dotQ (fun k => vp r k) (getFrustumCorners vp j) := by
      unfold dotQ
      ring
    rw [hexp, h3, hr, mulVec_getFrustumCorners vp hdet j 3, mulVec_getFrustumCorners vp hdet j r]
    rw [div_add_div_same]
  have hminus : ∀ (r : Fin 4), dotQ (fun k => vp 3 k - vp r k) (getFrustumCorners vp j) =
      (ndcCorners j 3 - ndcCorners j r) / wOf vp j := by
    intro r
    have h3 := dotQ_row vp 3 (getFrustumCorners vp j)
    have hr := dotQ_row vp r (getFrustumCorners vp j)
    have hexp : dotQ (fun k => vp 3 k - vp r k) (getFrustumCorners vp j) =
        dotQ (fun k => vp 3 k) (getFrustumCorners vp j) -
        dotQ (fun k => vp r k) (getFrustumCorners vp j) := by
      unfold dotQ
      ring
    rw [hexp, h3, hr, mulVec_getFrustumCorners vp hdet j 3, mulVec_getFrustumCorners vp hdet j r]
    rw [div_sub_div_same]
  have hnum : ∀ (r : Fin 4), 0 ≤ (ndcCorners j 3 + ndcCorners j r) / wOf vp j := by
    intro r
    apply div_nonneg _ (le_of_lt (hw j))
    rcases hndc r with h | h <;> rw [hndc3, h] <;> norm_num
  have hnum2 : ∀ (r : Fin 4), 0 ≤ (ndcCorners j 3 - ndcCorners j r) / wOf vp j := by
    intro r
    apply div_nonneg _ (le_of_lt (hw j))
    rcases hndc r with h | h <;> rw [hndc3, h] <;> norm_num
  fin_cases i
  · show 0 ≤ dotQ (getFrustumPlanes vp 0) (getFrustumCorners vp j)
    rw [show getFrustumPlanes vp 0 = fun k => vp 3 k + vp 0 k from rfl, hplus 0]
    exact hnum 0
  · show 0 ≤ dotQ (getFrustumPlanes vp 1) (getFrustumCorners vp j)
    rw [show getFrustumPlanes vp 1 = fun k => vp 3 k - vp 0 k from rfl, hminus 0]
    exact hnum2 0
  · show 0 ≤ dotQ (getFrustumPlanes vp 2) (getFrustumCorners vp j)
    rw [show getFrustumPlanes vp 2 = fun k => vp 3 k + vp 1 k from rfl, hplus 1]
    exact hnum 1
  · show 0 ≤ dotQ (getFrustumPlanes vp 3) (getFrustumCorners vp j)
    rw [show getFrustumPlanes vp 3 = fun k => vp 3 k - vp 1 k from rfl, hminus 1]
    exact hnum2 1
  · show 0 ≤ dotQ (getFrustumPlanes vp 4) (getFrustumCorners vp j)
    rw [show getFrustumPlanes vp 4 = fun k => vp 3 k + vp 2 k from rfl, hplus 2]
    exact hnum 2
  · show 0 ≤ dotQ (getFrustumPlanes vp 5) (getFrustumCorners vp j)
    rw [show getFrustumPlanes vp 5 = fun k => vp 3 k - vp 2 k from rfl, hminus 2]
    exact hnum2 2

theorem dotQ_mkVec4 (p : Vec4) (a b c d : ℚ) :
    dotQ p (mkVec4 a b c d) = p 0 * a + p 1 * b + p 2 * c + p 3 * d := rfl

/-- An affine plane functional on a point inside an AABB is bounded by its
value at one of the 8 box corners. -/
theorem dotQ_le_boxCorner (p : Vec4) (b : BoundingBox) (v : Vec4) (hv3 : v 3 = 1)
    (hin : InBox b v) : ∃ k : Fin 8, dotQ p v ≤ dotQ p (boxCorner b k) := by
  obtain ⟨h1, h2, h3, h4, h5, h6⟩ := hin
  have hdv : dotQ p v = p 0 * v 0 + p 1 * v 1 + p 2 * v 2 + p 3 := by
    unfold dotQ
    rw [hv3]
    ring
  rcases le_or_lt 0 (p 0) with hp0 | hp0 <;>
    rcases le_or_lt 0 (p 1) with hp1 | hp1 <;>
      rcases le_or_lt 0 (p 2) with hp2 | hp2
  · refine ⟨7, ?_⟩
    rw [show boxCorner b 7 = mkVec4 b.max_.x b.max_.y b.max_.z 1 from rfl, dotQ_mkVec4, hdv]
    have e1 := mul_le_mul_of_nonneg_left h2 hp0
    have e2 := mul_le_mul_of_nonneg_left h4 hp1
    have e3 := mul_le_mul_of_nonneg_left h6 hp2
    linarith
  · refine ⟨3, ?_⟩
    rw [show boxCorner b 3 = mkVec4 b.max_.x b.max_.y b.min_.z 1 from rfl, dotQ_mkVec4, hdv]
    have e1 := mul_le_mul_of_nonneg_left h2 hp0
    have e2 := mul_le_mul_of_nonneg_left h4 hp1
    have e3 := mul_le_mul_of_nonpos_left h5 (le_of_lt hp2)
    linarith
  · refine ⟨5, ?_⟩
    rw [show boxCorner b 5 = mkVec4 b.max_.x b.min_.y b.max_.z 1 from rfl, dotQ_mkVec4, hdv]
    have e1 := mul_le_mul_of_nonneg_left h2 hp0
    have e2 := mul_le_mul_of_nonpos_left h3 (le_of_lt hp1)
    have e3 := mul_le_mul_of_nonneg_left h6 hp2
    linarith
  · refine ⟨1, ?_⟩
    rw [show boxCorner b 1 = mkVec4 b.max_.x b.min_.y b.min_.z 1 from rfl, dotQ_mkVec4, hdv]
    have e1 := mul_le_mul_of_nonneg_left h2 hp0
    have e2 := mul_le_mul_of_nonpos_left h3 (le_of_lt hp1)
    have e3 := mul_le_mul_of_nonpos_left h5 (le_of_lt hp2)
    linarith
  · refine ⟨6, ?_⟩
    rw [show boxCorner b 6 = mkVec4 b.min_.x b.max_.y b.max_.z 1 from rfl, dotQ_mkVec4, hdv]
    have e1 := mul_le_mul_of_nonpos_left h1 (le_of_lt hp0)
    have e2 := mul_le_mul_of_nonneg_left h4 hp1
    have e3 := mul_le_mul_of_nonneg_left h6 hp2
    linarith
  · refine ⟨2, ?_⟩
    rw [show boxCorner b 2 = mkVec4 b.min_.x b.max_.y b.min_.z 1 from rfl, dotQ_mkVec4, hdv]
    have e1 := mul_le_mul_of_nonpos_left h1 (le_of_lt hp0)
    have e2 := mul_le_mul_of_nonneg_left h4 hp1
    have e3 := mul_le_mul_of_nonpos_left h5 (le_of_lt hp2)
    linarith
  · refine ⟨4, ?_⟩
    rw [show boxCorner b 4 = mkVec4 b.min_.x b.min_.y b.max_.z 1 from rfl, dotQ_mkVec4, hdv]
    have e1 := mul_le_mul_of_nonpos_left h1 (le_of_lt hp0)
    have e2 := mul_le_mul_of_nonpos_left h3 (le_of_lt hp1)
    have e3 := mul_le_mul_of_nonneg_left h6 hp2
    linarith
  · refine ⟨0, ?_⟩
    rw [show boxCorner b 0 = mkVec4 b.min_.x b.min_.y b.min_.z 1 from rfl, dotQ_mkVec4, hdv]
    have e1 := mul_le_mul_of_nonpos_left h1 (le_of_lt hp0)
    have e2 := mul_le_mul_of_nonpos_left h3 (le_of_lt hp1)
    have e3 := mul_le_mul_of_nonpos_left h5 (le_of_lt hp2)
    linarith

/-- C5.  For every view-projection matrix defining a genuine frustum
(invertible, all 8 unprojected corners with positive `w`), an AABB that
contains all 8 frustum corners is classified visible: phase 1 finds no plane
with all 8 box corners strictly negative, none of the six phase-2 checks
finds all 8 frustum corners beyond one box face, and `isBoxInFrustum`
returns `true`. -/
theorem isBoxInFrustum_contains (vp : Matrix (Fin 4) (Fin 4) ℚ) (b : BoundingBox)
    (hdet : vp.det ≠ 0) (hw : ∀ j, 0 < wOf vp j)
    (hbox : ∀ j, InBox b (getFrustumCorners vp j)) :
    (∀ i : Fin 6, (List.finRange 8).countP
        (fun j => decide (dotQ (getFrustumPlanes vp i) (boxCorner b j) < 0)) ≠ 8) ∧
    ((List.finRange 8).countP (fun j => decide (getFrustumCorners vp j 0 > b.max_.x)) ≠ 8 ∧
     (List.finRange 8).countP (fun j => decide (getFrustumCorners vp j 0 < b.min_.x)) ≠ 8 ∧
     (List.finRange 8).countP (fun j => decide (getFrustumCorners vp j 1 > b.max_.y)) ≠ 8 ∧
     (List.finRange 8).countP (fun j => decide (getFrustumCorners vp j 1 < b.min_.y)) ≠ 8 ∧
     (List.finRange 8).countP (fun j => decide (getFrustumCorners vp j 2 > b.max_.z)) ≠ 8 ∧
     (List.finRange 8).countP (fun j => decide (getFrustumCorners vp j 2 < b.min_.z)) ≠ 8) ∧
    isBoxInFrustum (getFrustumPlanes vp) (getFrustumCorners vp) b = true := by
  have hc3 : ∀ j, getFrustumCorners vp j 3 = 1 := by
    intro j
    show Matrix.mulVec (inv4 vp) (ndcCorners j) 3 / Matrix.mulVec (inv4 vp) (ndcCorners j) 3 = 1
    exact div_self (ne_of_gt (hw j))
  have hlen8 : (List.finRange 8).length = 8 := by simp
  have hphase1 : ∀ i : Fin 6, (List.finRange 8).countP
      (fun j => decide (dotQ (getFrustumPlanes vp i) (boxCorner b j) < 0)) ≠ 8 := by
    intro i hcon
    have hall := List.countP_eq_length.mp (by rw [hcon, hlen8])
    obtain ⟨k, hk⟩ := dotQ_le_boxCorner (getFrustumPlanes vp i) b (getFrustumCorners vp 0)
      (hc3 0) (hbox 0)
    have hneg : dotQ (getFrustumPlanes vp i) (boxCorner b k) < 0 := by
      have := hall k (List.mem_finRange k)
      simpa using this
    have hge := dotQ_plane_corner_nonneg vp hdet hw i 0
    linarith
  have hnot8 : ∀ (p : Fin 8 → Bool), p 0 = false → (List.finRange 8).countP p ≠ 8 := by
    intro p hp0 hcon
    have hall := List.countP_eq_length.mp (by rw [hcon, hlen8])
    have := hall 0 (List.mem_finRange 0)
    rw [hp0] at this
    exact Bool.false_ne_true this
  obtain ⟨b1, b2, b3, b4, b5, b6⟩ := hbox 0
  have hp1 := hnot8 (fun j => decide (getFrustumCorners vp j 0 > b.max_.x))
    (decide_eq_false (not_lt.mpr b2))
  have hp2 := hnot8 (fun j => decide (getFrustumCorners vp j 0 < b.min_.x))
    (decide_eq_false (not_lt.mpr b1))
  have hp3 := hnot8 (fun j => decide (getFrustumCorners vp j 1 > b.max_.y))
    (decide_eq_false (not_lt.mpr b4))
  have hp4 := hnot8 (fun j => decide (getFrustumCorners vp j 1 < b.min_.y))
    (decide_eq_false (not_lt.mpr b3))
  have hp5 := hnot8 (fun j => decide (getFrustumCorners vp j 2 > b.max_.z))
    (decide_eq_false (not_lt.mpr b6))
  have hp6 := hnot8 (fun j => decide (getFrustumCorners vp j 2 < b.min_.z))
    (decide_eq_false (not_lt.mpr b5))
  refine ⟨hphase1, ⟨hp1, hp2, hp3, hp4, hp5, hp6⟩, ?_⟩
  unfold isBoxInFrustum
  have hany : ((List.finRange 6).any (fun i => (List.finRange 8).countP
      (fun j => decide (dotQ (getFrustumPlanes vp i) (boxCorner b j) < 0)) = 8)) = false := by
    rw [List.any_eq_false]
    intro i _
    simpa using hphase1 i
  rw [if_neg (by rw [hany]; exact Bool.false_ne_true)]
  rw [if_neg hp1, if_neg hp2, if_neg hp3, if_neg hp4, if_neg hp5, if_neg hp6]

theorem inv4_one : inv4 (1 : Matrix (Fin 4) (Fin 4) ℚ) = 1 := by
  unfold inv4
  simp

/-- The `[-1000, 1000]^3` box of the large-AABB scenario. -/
def bigBox : BoundingBox :=
  { min_ := { x := -1000, y := -1000, z := -1000 },
    max_ := { x := 1000, y := 1000, z := 1000 } }

theorem wOf_one (j : Fin 8) : wOf 1 j = ndcCorners j 3 := by
  unfold wOf
  rw [inv4_one, Matrix.one_mulVec]

theorem getFrustumCorners_one (j : Fin 8) : getFrustumCorners 1 j = ndcCorners j := by
  unfold getFrustumCorners
  rw [inv4_one, Matrix.one_mulVec]
  funext k
  have h : ndcCorners j 3 = 1 := by revert j; decide
  rw [h, div_one]

theorem ndcCorners_inBox : ∀ j : Fin 8, InBox bigBox (ndcCorners j) := by
  decide

/-- Witness for `isBoxInFrustum_contains`: the identity view-projection
(NDC-cube frustum, all `w = 1`) against the `[-1000, 1000]^3` box. -/
theorem isBoxInFrustum_contains_witness :
    (1 : Matrix (Fin 4) (Fin 4) ℚ).det ≠ 0 ∧
    isBoxInFrustum (getFrustumPlanes 1) (getFrustumCorners 1) bigBox = true :=
  ⟨by simp,
   (isBoxInFrustum_contains 1 bigBox (by simp)
      (fun j => by
        rw [wOf_one j]
        have h : ndcCorners j 3 = 1 := by revert j; decide
        rw [h]
        norm_num)
      (fun j => by
        rw [getFrustumCorners_one j]
        exact ndcCorners_inBox j)).2.2⟩

/-- One item of the persisted stream, at the granularity of the
`fread`/`fwrite` calls of `loadScene`/`saveScene`: a `uint32_t` word, one
`glm::mat4`, or one `Hierarchy` record. -/
inductive StreamItem (M : Type) where
  | word (w : Nat)
  | mat (m : M)
  | hier (h : Hierarchy)
  deriving DecidableEq

/-- `saveMap`: flatten the `{key, value}` pairs into a word vector `ms` in
iteration order, then write `ms.size` followed by the words. -/
def saveMap (M : Type) (m : List (Nat × Nat)) : List (StreamItem M) :=
  let ms := m.foldl (fun acc kv => acc ++ [kv.1, kv.2]) ([] : List Nat)
  StreamItem.word ms.length :: ms.map StreamItem.word

/-- `saveScene`: node count, the local then global transform dumps, the
hierarchy dump, then `saveMap(materialForNode)` and `saveMap(meshForNode)`.
The trailing name block is only written when node names are present and is
not part of the claims' layout; it is omitted here. -/
def saveScene (s : Scene M) : List (StreamItem M) :=
  StreamItem.word s.hierarchy.length ::
    (s.localTransform.map StreamItem.mat ++ s.globalTransform.map StreamItem.mat ++
     s.hierarchy.map StreamItem.hier ++
     saveMap M s.materialForNode ++ saveMap M s.meshForNode)

/-- Read `n` consecutive items decoded by `f` (one flat `fread`). -/
def takeItems {M A : Type} (f : StreamItem M → Option A) :
    Nat → List (StreamItem M) → Option (List A × List (StreamItem M))
  | 0, st => some ([], st)
  | n + 1, x :: rest =>
    match f x with
    | some a =>
      match takeItems f n rest with
      | some (as2, rest2) => some (a :: as2, rest2)
      | none => none
    | none => none
  | _ + 1, [] => none

def wordItem {M : Type} : StreamItem M → Option Nat
  | StreamItem.word w => some w
  | _ => none

def matItem {M : Type} : StreamItem M → Option M
  | StreamItem.mat m => some m
  | _ => none

def hierItem {M : Type} : StreamItem M → Option Hierarchy
  | StreamItem.hier h => some h
  | _ => none

/-- `map[k] = v` on the association-list model of `std::unordered_map`. -/
def mapInsert (l : List (Nat × Nat)) (k v : Nat) : List (Nat × Nat) :=
  if l.any (fun p => p.1 == k) then l.map (fun p => if p.1 == k then (k, v) else p)
  else l ++ [(k, v)]

/-- `loadMap`: read the word count `sz`, read `sz` words, then insert the
`sz / 2` pairs `map[ms[2i]] = ms[2i+1]`. -/
def loadMap (M : Type) (st : List (StreamItem M)) :
    Option (List (Nat × Nat) × List (StreamItem M)) :=
  match st with
  | StreamItem.word sz :: rest =>
    (takeItems wordItem sz rest).bind (fun pr =>
      some ((List.range (sz / 2)).foldl
        (fun m i => mapInsert m (pr.1.getD (2 * i) 0) (pr.1.getD (2 * i + 1) 0)) [], pr.2))
  | _ => none

/-- `loadScene`: read the node count, resize-and-read the three arrays, then
`loadMap(materialForNode)` and `loadMap(meshForNode)`; trailing data (the
optional name block) is ignored, mirroring the `feof` guard. -/
def loadScene (M : Type) (st : List (StreamItem M)) : Option (Scene M) :=
  match st with
  | StreamItem.word sz :: rest =>
    (takeItems matItem sz rest).bind (fun pl =>
      (takeItems matItem sz pl.2).bind (fun pg =>
        (takeItems hierItem sz pg.2).bind (fun ph =>
          (loadMap M ph.2).bind (fun pmat =>
            (loadMap M pmat.2).bind (fun pmesh =>
              some { localTransform := pl.1, globalTransform := pg.1,
                     hierarchy := ph.1, materialForNode := pmat.1,
                     meshForNode := pmesh.1 })))))
  | _ => none

theorem takeItems_map_append {M A : Type} (f : StreamItem M → Option A) (g : A → StreamItem M)
    (hfg : ∀ a, f (g a) = some a) :
    ∀ (l : List A) (rest : List (StreamItem M)),
      takeItems f l.length (l.map g ++ rest) = some (l, rest) := by
  intro l
  induction l with
  | nil => intro rest; rfl
  | cons a t ih =>
    intro rest
    show takeItems f (t.length + 1) (g a :: (t.map g ++ rest)) = _
    simp only [takeItems, hfg a, ih rest]

/-- The flattened `{key, value}` word vector of `saveMap`. -/
def flatPairs : List (Nat × Nat) → List Nat
  | [] => []
  | p :: t => p.1 :: p.2 :: flatPairs t

theorem foldl_flatPairs : ∀ (m : List (Nat × Nat)) (acc : List Nat),
    m.foldl (fun acc kv => acc ++ [kv.1, kv.2]) acc = acc ++ flatPairs m := by
  intro m
  induction m with
  | nil => intro acc; simp [flatPairs]
  | cons p t ih =>
    intro acc
    show t.foldl _ (acc ++ [p.1, p.2]) = _
    rw [ih (acc ++ [p.1, p.2])]
    simp [flatPairs]

theorem flatPairs_length : ∀ m : List (Nat × Nat), (flatPairs m).length = 2 * m.length := by
  intro m
  induction m with
  | nil => rfl
  | cons p t ih => simp [flatPairs, ih]; omega

theorem flatPairs_getD : ∀ (m : List (Nat × Nat)) (i : Nat), i < m.length →
    (flatPairs m).getD (2 * i) 0 = (m.getD i (0, 0)).1 ∧
    (flatPairs m).getD (2 * i + 1) 0 = (m.getD i (0, 0)).2 := by
  intro m
  induction m with
  | nil => intro i hi; simp at hi
  | cons p t ih =>
    intro i hi
    cases i with
    | zero => exact ⟨rfl, rfl⟩
    | succ i =>
      have h2 : 2 * (i + 1) = 2 * i + 1 + 1 := by omega
      rw [h2]
      show ((flatPairs t).getD (2 * i) 0 = _) ∧ ((flatPairs t).getD (2 * i + 1) 0 = _)
      exact ih i (by simpa using hi)

theorem foldl_range_getD {α β : Type _} (l : List α) (d : α) (f : β → α → β) :
    ∀ (b : β), (List.range l.length).foldl (fun acc i => f acc (l.getD i d)) b = l.foldl f b := by
  induction l with
  | nil => intro b; rfl
  | cons a t ih =>
    intro b
    rw [show (a :: t).length = t.length + 1 from rfl, List.range_succ_eq_map]
    rw [List.foldl_cons, List.foldl_map]
    show (List.range t.length).foldl (fun acc i => f acc (t.getD i d)) (f b a) = _
    rw [ih (f b a)]
    rfl

theorem mapInsert_foldl : ∀ (m acc : List (Nat × Nat)),
    (m.map Prod.fst).Nodup → (∀ p ∈ acc, ∀ q ∈ m, p.1 ≠ q.1) →
    m.foldl (fun a kv => mapInsert a kv.1 kv.2) acc = acc ++ m := by
  intro m
  induction m with
  | nil => intro acc _ _; simp
  | cons p t ih =>
    intro acc hnd hdis
    show t.foldl _ (mapInsert acc p.1 p.2) = _
    rw [List.map_cons] at hnd
    obtain ⟨hhead, htail⟩ := List.nodup_cons.mp hnd
    have hnotin : acc.any (fun q => q.1 == p.1) = false := by
      rw [List.any_eq_false]
      intro q hq
      simpa using hdis q hq p (List.mem_cons_self _ _)
    have hins : mapInsert acc p.1 p.2 = acc ++ [(p.1, p.2)] := by
      unfold mapInsert
      rw [if_neg (by rw [hnotin]; exact Bool.false_ne_true)]
    rw [hins]
    rw [ih (acc ++ [(p.1, p.2)]) htail ?_]
    · simp
    · intro q hq r hr
      rcases List.mem_append.mp hq with h | h
      · exact hdis q h r (List.mem_cons_of_mem _ hr)
      · have hqp : q = (p.1, p.2) := by simpa using h
        subst hqp
        intro hcon
        apply hhead
        rw [show p.1 = r.1 from hcon]
        exact List.mem_map_of_mem Prod.fst hr

theorem loadMap_saveMap (M : Type) (m : List (Nat × Nat)) (rest : List (StreamItem M))
    (hnd : (m.map Prod.fst).Nodup) :
    loadMap M (saveMap M m ++ rest) = some (m, rest) := by
  have hflat : m.foldl (fun acc kv => acc ++ [kv.1, kv.2]) ([] : List Nat) = flatPairs m := by
    rw [foldl_flatPairs]
    rfl
  have htake : takeItems wordItem (flatPairs m).length ((flatPairs m).map StreamItem.word ++ rest) =
      some (flatPairs m, rest) :=
    takeItems_map_append wordItem StreamItem.word (fun a => rfl) (flatPairs m) rest
  show (takeItems wordItem ((m.foldl (fun acc kv => acc ++ [kv.1, kv.2]) []).length)
      (((m.foldl (fun acc kv => acc ++ [kv.1, kv.2]) []).map StreamItem.word) ++ rest)).bind
      (fun pr => some ((List.range ((m.foldl (fun acc kv => acc ++ [kv.1, kv.2]) []).length / 2)).foldl
        (fun mm i => mapInsert mm (pr.1.getD (2 * i) 0) (pr.1.getD (2 * i + 1) 0)) [], pr.2)) =
      some (m, rest)
  rw [hflat, htake, Option.some_bind]
  have hhalf : (flatPairs m).length / 2 = m.length := by
    rw [flatPairs_length]
    omega
  rw [hhalf]
  have hext : (List.range m.length).foldl
      (fun a i => mapInsert a ((flatPairs m).getD (2 * i) 0) ((flatPairs m).getD (2 * i + 1) 0))
      [] =
      (List.range m.length).foldl
      (fun a i => mapInsert a (m.getD i (0, 0)).1 (m.getD i (0, 0)).2) [] := by
    apply List.foldl_ext
    intro a i hi
    obtain ⟨h1, h2⟩ := flatPairs_getD m i (List.mem_range.mp hi)
    rw [h1, h2]
  rw [hext]
  rw [foldl_range_getD m (0, 0) (fun a kv => mapInsert a kv.1 kv.2) []]
  rw [mapInsert_foldl m [] hnd (by intro p hp; simp at hp)]
  rfl

/-- C7.  Saving a scene in the persisted layout (count header, flat local /
global / hierarchy dumps, then the two sparse maps as `{count, pairs}` word
blocks) and loading the result restores the hierarchy unchanged — hence
isomorphic under the identity index remap — together with equal transform
arrays and equal node-to-material and node-to-mesh maps. -/
theorem loadScene_saveScene (s : Scene M)
    (hl : s.localTransform.length = s.hierarchy.length)
    (hg : s.globalTransform.length = s.hierarchy.length)
    (hm1 : (s.materialForNode.map Prod.fst).Nodup)
    (hm2 : (s.meshForNode.map Prod.fst).Nodup) :
    ∃ t, loadScene M (saveScene s) = some t ∧
      t.hierarchy = s.hierarchy ∧ t.localTransform = s.localTransform ∧
      t.globalTransform = s.globalTransform ∧ t.materialForNode = s.materialForNode ∧
      t.meshForNode = s.meshForNode := by
  refine ⟨{ localTransform := s.localTransform, globalTransform := s.globalTransform,
            hierarchy := s.hierarchy, materialForNode := s.materialForNode,
            meshForNode := s.meshForNode }, ?_, rfl, rfl, rfl, rfl, rfl⟩
  show (takeItems matItem s.hierarchy.length
      (s.localTransform.map StreamItem.mat ++ s.globalTransform.map StreamItem.mat ++
       s.hierarchy.map StreamItem.hier ++ saveMap M s.materialForNode ++
       saveMap M s.meshForNode)).bind (fun pl =>
      (takeItems matItem s.hierarchy.length pl.2).bind (fun pg =>
        (takeItems hierItem s.hierarchy.length pg.2).bind (fun ph =>
          (loadMap M ph.2).bind (fun pmat =>
            (loadMap M pmat.2).bind (fun pmesh =>
              some ({ localTransform := pl.1, globalTransform := pg.1,
                      hierarchy := ph.1, materialForNode := pmat.1,
                      meshForNode := pmesh.1 } : Scene M)))))) = _
  rw [List.append_assoc, List.append_assoc, List.append_assoc]
  rw [show s.hierarchy.length = s.localTransform.length from hl.symm]
  rw [takeItems_map_append matItem StreamItem.mat (fun a => rfl) s.localTransform _,
    Option.some_bind]
  rw [show s.localTransform.length = s.globalTransform.length from by omega]
  rw [takeItems_map_append matItem StreamItem.mat (fun a => rfl) s.globalTransform _,
    Option.some_bind]
  rw [show s.globalTransform.length = s.hierarchy.length from hg]
  rw [takeItems_map_append hierItem StreamItem.hier (fun a => rfl) s.hierarchy _,
    Option.some_bind]
  rw [loadMap_saveMap M s.materialForNode _ hm1, Option.some_bind]
  have hlast : loadMap M (saveMap M s.meshForNode) = some (s.meshForNode, []) := by
    have h := loadMap_saveMap M s.meshForNode [] hm2
    rwa [List.append_nil] at h
  simp only [hlast, Option.some_bind]

/-- Witness for `loadScene_saveScene` on a concrete 2-node scene. -/
theorem loadScene_saveScene_witness :
    (([(1, 9)] : List (Nat × Nat)).map Prod.fst).Nodup ∧
    ∃ t, loadScene Int (saveScene
        { localTransform := [3, 4], globalTransform := [5, 6],
          hierarchy := [{ parent := -1, firstChild := 1 }, { parent := 0, level := 1 }],
          materialForNode := [(1, 9)], meshForNode := [(1, 0)] }) = some t ∧
      t.hierarchy = [{ parent := -1, firstChild := 1 }, { parent := 0, level := 1 }] ∧
      t.localTransform = [3, 4] ∧ t.globalTransform = [5, 6] ∧
      t.materialForNode = [(1, 9)] ∧ t.meshForNode = [(1, 0)] :=
  ⟨by decide,
   loadScene_saveScene
     ({ localTransform := [3, 4], globalTransform := [5, 6],
        hierarchy := [{ parent := -1, firstChild := 1 }, { parent := 0, level := 1 }],
        materialForNode := [(1, 9)], meshForNode := [(1, 0)] } : Scene Int)
     (by decide) (by decide) (by decide) (by decide)⟩

/-! ### Merging scenes (`mergeScenes`, Chapter 8) -/

/-- The `shiftNode` lambda of `shiftNodes`: add `shiftAmount` to each
cross-reference that is `> -1`. -/
def shiftNode (shiftAmount : Int) (h : Hierarchy) : Hierarchy :=
  { parent := if h.parent > -1 then h.parent + shiftAmount else h.parent,
    firstChild := if h.firstChild > -1 then h.firstChild + shiftAmount else h.firstChild,
    nextSibling := if h.nextSibling > -1 then h.nextSibling + shiftAmount else h.nextSibling,
    lastSibling := if h.lastSibling > -1 then h.lastSibling + shiftAmount else h.lastSibling,
    level := h.level }

/-- `shiftNodes`: apply `shiftNode` to `hierarchy[startOffset .. startOffset+nodeCount)`
(the C++ loop `for (i = 0; i < nodeCount; i++) shiftNode(scene.hierarchy[i + startOffset])`). -/
def shiftNodes (sc : Scene M) (startOffset nodeCount : Nat) (shiftAmount : Int) : Scene M :=
  { sc with hierarchy :=
      sc.hierarchy.take startOffset ++
      ((sc.hierarchy.drop startOffset).take nodeCount).map (shiftNode shiftAmount) ++
      sc.hierarchy.drop (startOffset + nodeCount) }

/-- `mergeMaps`: `for (i : otherMap) m[i.first + indexOffset] = i.second + itemOffset`. -/
def mergeMaps (m otherMap : List (Nat × Nat)) (indexOffset itemOffset : Nat) :
    List (Nat × Nat) :=
  otherMap.foldl (fun acc p => mapInsert acc (p.1 + indexOffset) (p.2 + itemOffset)) m

/-- Running state of the first `mergeScenes` loop: the output scene plus the
offset counters `offs`, `meshOffs`, `nameOffs`, `materialOfs` and the
`meshCount` iterator. -/
structure MergeState (M : Type) where
  scene : Scene M
  offs : Nat
  meshOffs : Nat
  nameOffs : Nat
  materialOfs : Nat
  meshCounts : List Nat

/-- One iteration of the first `mergeScenes` loop: append the source scene's
arrays, shift the appended hierarchy block by `offs`, merge the three maps,
then advance the offsets. -/
def mergePhase1Step (mergeMeshes mergeMaterials : Bool) (st : MergeState M) (s : Scene M) :
    MergeState M :=
  let sc0 := st.scene
  let sc1 : Scene M :=
    { sc0 with
      localTransform := sc0.localTransform ++ s.localTransform,
      globalTransform := sc0.globalTransform ++ s.globalTransform,
      hierarchy := sc0.hierarchy ++ s.hierarchy,
      nodeNames := sc0.nodeNames ++ s.nodeNames,
      materialNames :=
        if mergeMaterials then sc0.materialNames ++ s.materialNames else sc0.materialNames }
  let nodeCount := s.hierarchy.length
  let sc2 := shiftNodes sc1 st.offs nodeCount (st.offs : Int)
  let sc3 : Scene M :=
    { sc2 with
      meshForNode :=
        mergeMaps sc2.meshForNode s.meshForNode st.offs
          (if mergeMeshes then st.meshOffs else 0),
      materialForNode :=
        mergeMaps sc2.materialForNode s.materialForNode st.offs
          (if mergeMaterials then st.materialOfs else 0),
      nameForNode := mergeMaps sc2.nameForNode s.nameForNode st.offs st.nameOffs }
  { scene := sc3,
    offs := st.offs + nodeCount,
    meshOffs := if mergeMeshes then st.meshOffs + st.meshCounts.headD 0 else st.meshOffs,
    nameOffs := st.nameOffs + s.nodeNames.length,
    materialOfs := st.materialOfs + s.materialNames.length,
    meshCounts := if mergeMeshes then st.meshCounts.tail else st.meshCounts }

/-- One iteration of the second `mergeScenes` loop: attach the source scene's
old root (at index `offs`) to the new root, set its next sibling to the next
block's offset (or `-1` for the last scene), and premultiply its local
transform by `rootTransforms[idx]` when root transforms are provided. -/
def mergePhase2Step [One M] [Mul M] (numScenes : Nat) (rootTransforms : List M)
    (st : Scene M × Nat × Nat) (s : Scene M) : Scene M × Nat × Nat :=
  let sc := st.1
  let offs := st.2.1
  let idx := st.2.2
  let nodeCount := s.hierarchy.length
  let isLast := idx = numScenes - 1
  let next : Int := if isLast then -1 else ((offs + nodeCount : Nat) : Int)
  let sc1 := modifyH sc offs (fun h => { h with nextSibling := next, parent := 0 })
  let sc2 :=
    { sc1 with
      localTransform :=
        if rootTransforms.isEmpty then sc1.localTransform
        else
          sc1.localTransform.set offs
            (rootTransforms.getD idx 1 * sc1.localTransform.getD offs 1) }
  (sc2, offs + nodeCount, idx + 1)

/-- The final `mergeScenes` loop: `level++` for every node but the new root
(`hierarchy.begin() + 1` to `end()`). -/
def incrementLevelsFromOne (l : List Hierarchy) : List Hierarchy :=
  match l with
  | [] => []
  | h :: t => h :: t.map (fun n => { n with level := n.level + 1 })

/-- The initial output of `mergeScenes`: the one-node `"NewRoot"` scene
(hierarchy `{-1, 1, -1, -1, 0}`, name map `{0: 0}`, identity transforms). -/
def newRootScene (M : Type) [One M] : Scene M :=
  { hierarchy :=
      [{ parent := -1, firstChild := 1, nextSibling := -1, lastSibling := -1, level := 0 }],
    nameForNode := [(0, 0)],
    nodeNames := ["NewRoot"],
    localTransform := [1],
    globalTransform := [1] }

/-- `mergeScenes`: synthesize the one-node `"NewRoot"` scene, return it as is
for an empty input, otherwise run the three loops (append-and-shift, root
reattachment, level increment). -/
def mergeScenes [One M] [Mul M] (scenes : List (Scene M)) (rootTransforms : List M)
    (meshCounts : List Nat) (mergeMeshes mergeMaterials : Bool) : Scene M :=
  match scenes with
  | [] => newRootScene M
  | s0 :: _ =>
    let scene0 :=
      if mergeMaterials then newRootScene M
      else { newRootScene M with materialNames := s0.materialNames }
    let st1 :=
      scenes.foldl (mergePhase1Step mergeMeshes mergeMaterials)
        { scene := scene0, offs := 1, meshOffs := 0, nameOffs := scene0.nodeNames.length,
          materialOfs := 0, meshCounts := meshCounts }
    let r2 :=
      scenes.foldl (mergePhase2Step scenes.length rootTransforms) (st1.scene, 1, 0)
    { r2.1 with hierarchy := incrementLevelsFromOne r2.1.hierarchy }


/-- Sum of the hierarchy sizes of a list of scenes. -/
def sumLen (ss : List (Scene M)) : Nat := (ss.map (fun s => s.hierarchy.length)).sum

/-- The concatenation of the source hierarchy blocks, each shifted by its
starting offset, as laid down by the first `mergeScenes` loop. -/
def blocksHier : List (Scene M) → Nat → List Hierarchy
  | [], _ => []
  | s :: t, offs =>
    s.hierarchy.map (shiftNode (offs : Int)) ++ blocksHier t (offs + s.hierarchy.length)

theorem sumLen_nil : sumLen ([] : List (Scene M)) = 0 := rfl

theorem sumLen_cons (s : Scene M) (t : List (Scene M)) :
    sumLen (s :: t) = s.hierarchy.length + sumLen t := by
  simp [sumLen]

theorem blocksHier_length : ∀ (ss : List (Scene M)) (offs : Nat),
    (blocksHier ss offs).length = sumLen ss := by
  intro ss
  induction ss with
  | nil => intro offs; rfl
  | cons s t ih =>
    intro offs
    rw [blocksHier, sumLen_cons]
    simp [ih]

theorem getD_append_ge {α : Type _} : ∀ (l l' : List α) (n : Nat) (d : α),
    (l ++ l').getD (l.length + n) d = l'.getD n d := by
  intro l
  induction l with
  | nil => intro l' n d; simp
  | cons a t ih =>
    intro l' n d
    simpa [Nat.succ_add] using ih l' n d

theorem shiftSegment_eq (A B : List Hierarchy) (k : Int) :
    (A ++ B).take A.length ++ (((A ++ B).drop A.length).take B.length).map (shiftNode k)
      ++ (A ++ B).drop (A.length + B.length) = A ++ B.map (shiftNode k) := by
  rw [List.take_left, List.drop_left]
  rw [List.take_length]
  rw [show A.length + B.length = (A ++ B).length by simp]
  rw [List.drop_length, List.append_nil]

theorem mergePhase1Step_offs (mm mmat : Bool) (st : MergeState M) (s : Scene M) :
    (mergePhase1Step mm mmat st s).offs = st.offs + s.hierarchy.length := rfl

theorem mergePhase1Step_hier (mm mmat : Bool) (st : MergeState M) (s : Scene M)
    (hst : st.offs = st.scene.hierarchy.length) :
    (mergePhase1Step mm mmat st s).scene.hierarchy
      = st.scene.hierarchy ++ s.hierarchy.map (shiftNode (st.offs : Int)) := by
  show (st.scene.hierarchy ++ s.hierarchy).take st.offs ++
      (((st.scene.hierarchy ++ s.hierarchy).drop st.offs).take s.hierarchy.length).map
        (shiftNode (st.offs : Int)) ++
      (st.scene.hierarchy ++ s.hierarchy).drop (st.offs + s.hierarchy.length)
      = st.scene.hierarchy ++ s.hierarchy.map (shiftNode (st.offs : Int))
  rw [hst]
  exact shiftSegment_eq _ _ _

theorem phase1_hierarchy (mm mmat : Bool) :
    ∀ (ss : List (Scene M)) (st : MergeState M), st.offs = st.scene.hierarchy.length →
      (ss.foldl (mergePhase1Step mm mmat) st).scene.hierarchy
        = st.scene.hierarchy ++ blocksHier ss st.offs := by
  intro ss
  induction ss with
  | nil =>
    intro st hst
    simp [blocksHier]
  | cons s t ih =>
    intro st hst
    rw [List.foldl_cons]
    have h1 := mergePhase1Step_hier mm mmat st s hst
    have h2 : (mergePhase1Step mm mmat st s).offs
        = (mergePhase1Step mm mmat st s).scene.hierarchy.length := by
      rw [h1, mergePhase1Step_offs]
      simp [hst]
    rw [ih (mergePhase1Step mm mmat st s) h2, h1, mergePhase1Step_offs]
    rw [blocksHier]
    simp [hst, List.append_assoc]


theorem blocksHier_getD :
    ∀ (ss : List (Scene M)) (k : Nat) (hk : k < ss.length) (offs j : Nat),
      j < (ss.get ⟨k, hk⟩).hierarchy.length →
      (blocksHier ss offs).getD (sumLen (ss.take k) + j) {}
        = shiftNode ((offs + sumLen (ss.take k) : Nat) : Int) (hIdx (ss.get ⟨k, hk⟩) j) := by
  intro ss
  induction ss with
  | nil => intro k hk; exact absurd hk (by simp)
  | cons s t ih =>
    intro k hk offs j hj
    cases k with
    | zero =>
      simp only [List.take_zero, sumLen_nil, Nat.zero_add, Nat.add_zero]
      have hj' : j < s.hierarchy.length := hj
      rw [blocksHier]
      rw [getD_append_lt _ _ j _ (by simpa using hj')]
      rw [List.getD_eq_getElem _ _ (by simpa using hj'), List.getElem_map]
      rw [show hIdx (List.get (s :: t) ⟨0, hk⟩) j = s.hierarchy[j] from
        (List.getD_eq_getElem _ _ hj' : hIdx s j = _)]
    | succ k' =>
      have hk' : k' < t.length := by simpa using hk
      have hnc : sumLen ((s :: t).take (k' + 1)) + j
          = (s.hierarchy.map (shiftNode (offs : Int))).length
            + (sumLen (t.take k') + j) := by
        simp [sumLen_cons]
        omega
      rw [blocksHier, hnc, getD_append_ge]
      rw [ih k' hk' (offs + s.hierarchy.length) j (by simpa using hj)]
      congr 1
      simp [sumLen_cons]
      omega

theorem mergePhase2Step_sc_hier [One M] [Mul M] (nS : Nat) (rt : List M)
    (st : Scene M × Nat × Nat) (s : Scene M) :
    (mergePhase2Step nS rt st s).1.hierarchy
      = (modifyH st.1 st.2.1 (fun h =>
          { h with
            nextSibling :=
              if st.2.2 = nS - 1 then -1 else ((st.2.1 + s.hierarchy.length : Nat) : Int),
            parent := 0 })).hierarchy := rfl

theorem mergePhase2Step_length [One M] [Mul M] (nS : Nat) (rt : List M)
    (st : Scene M × Nat × Nat) (s : Scene M) :
    (mergePhase2Step nS rt st s).1.hierarchy.length = st.1.hierarchy.length := by
  rw [mergePhase2Step_sc_hier]
  simp

theorem phase2_length [One M] [Mul M] (nS : Nat) (rt : List M) :
    ∀ (ss : List (Scene M)) (sc : Scene M) (offs idx : Nat),
      (ss.foldl (mergePhase2Step nS rt) (sc, offs, idx)).1.hierarchy.length
        = sc.hierarchy.length := by
  intro ss
  induction ss with
  | nil => intro sc offs idx; rfl
  | cons s t ih =>
    intro sc offs idx
    rw [List.foldl_cons]
    exact (ih (mergePhase2Step nS rt (sc, offs, idx) s).1 (offs + s.hierarchy.length)
      (idx + 1)).trans (mergePhase2Step_length nS rt (sc, offs, idx) s)

theorem phase2_hIdx_lt [One M] [Mul M] (nS : Nat) (rt : List M) :
    ∀ (ss : List (Scene M)) (sc : Scene M) (offs idx m : Nat), m < offs →
      hIdx (ss.foldl (mergePhase2Step nS rt) (sc, offs, idx)).1 m = hIdx sc m := by
  intro ss
  induction ss with
  | nil => intro sc offs idx m hm; rfl
  | cons s t ih =>
    intro sc offs idx m hm
    rw [List.foldl_cons]
    have h1 : hIdx (List.foldl (mergePhase2Step nS rt)
        (mergePhase2Step nS rt (sc, offs, idx) s) t).1 m
        = hIdx (mergePhase2Step nS rt (sc, offs, idx) s).1 m :=
      ih (mergePhase2Step nS rt (sc, offs, idx) s).1 (offs + s.hierarchy.length)
        (idx + 1) m (by omega)
    rw [h1]
    show ((mergePhase2Step nS rt (sc, offs, idx) s).1.hierarchy).getD m {} = hIdx sc m
    rw [mergePhase2Step_sc_hier]
    exact hIdx_modifyH_ne sc offs _ m (by omega)

theorem phase2_hIdx_block [One M] [Mul M] (nS : Nat) (rt : List M) :
    ∀ (ss : List (Scene M)) (k : Nat) (hk : k < ss.length) (j : Nat),
      j < (ss.get ⟨k, hk⟩).hierarchy.length →
      ∀ (sc : Scene M) (offs idx : Nat),
      (∀ s ∈ ss, s.hierarchy.length ≠ 0) →
      offs + sumLen ss ≤ sc.hierarchy.length →
      hIdx (ss.foldl (mergePhase2Step nS rt) (sc, offs, idx)).1
          (offs + (sumLen (ss.take k) + j))
        = if j = 0 then
            { hIdx sc (offs + (sumLen (ss.take k) + j)) with
              nextSibling :=
                if idx + k = nS - 1 then -1
                else ((offs + (sumLen (ss.take k)
                  + (ss.get ⟨k, hk⟩).hierarchy.length) : Nat) : Int),
              parent := 0 }
          else hIdx sc (offs + (sumLen (ss.take k) + j)) := by
  intro ss
  induction ss with
  | nil => intro k hk; exact absurd hk (by simp)
  | cons s t ih =>
    intro k hk j hj sc offs idx hnon hlen
    rw [List.foldl_cons]
    have hslen : s.hierarchy.length ≠ 0 := hnon s (List.mem_cons_self _ _)
    have hsum : sumLen (s :: t) = s.hierarchy.length + sumLen t := sumLen_cons s t
    cases k with
    | zero =>
      have hj' : j < s.hierarchy.length := hj
      have hget : (s :: t).get ⟨0, hk⟩ = s := rfl
      rw [hget]
      simp only [List.take_zero, sumLen_nil, Nat.zero_add, Nat.add_zero]
      by_cases hj0 : j = 0
      · subst hj0
        simp only [Nat.add_zero]
        rw [if_pos (by trivial)]
        have hlt : hIdx (List.foldl (mergePhase2Step nS rt)
            (mergePhase2Step nS rt (sc, offs, idx) s) t).1 offs
            = hIdx (mergePhase2Step nS rt (sc, offs, idx) s).1 offs :=
          phase2_hIdx_lt nS rt t (mergePhase2Step nS rt (sc, offs, idx) s).1
            (offs + s.hierarchy.length) (idx + 1) offs (by omega)
        rw [hlt]
        show ((mergePhase2Step nS rt (sc, offs, idx) s).1.hierarchy).getD offs {} = _
        rw [mergePhase2Step_sc_hier]
        have hin : offs < sc.hierarchy.length := by
          rw [hsum] at hlen
          omega
        exact hIdx_modifyH_self sc offs (fun h =>
          { h with
            nextSibling := if idx = nS - 1 then -1
                           else ((offs + s.hierarchy.length : Nat) : Int),
            parent := 0 }) hin
      · rw [if_neg hj0]
        have hlt : hIdx (List.foldl (mergePhase2Step nS rt)
            (mergePhase2Step nS rt (sc, offs, idx) s) t).1 (offs + j)
            = hIdx (mergePhase2Step nS rt (sc, offs, idx) s).1 (offs + j) :=
          phase2_hIdx_lt nS rt t (mergePhase2Step nS rt (sc, offs, idx) s).1
            (offs + s.hierarchy.length) (idx + 1) (offs + j) (by omega)
        rw [hlt]
        show ((mergePhase2Step nS rt (sc, offs, idx) s).1.hierarchy).getD (offs + j) {} = _
        rw [mergePhase2Step_sc_hier]
        exact hIdx_modifyH_ne sc offs _ (offs + j) (by omega)
    | succ k' =>
      have hk' : k' < t.length := by simpa using hk
      have hj' : j < (t.get ⟨k', hk'⟩).hierarchy.length := by simpa using hj
      have hget : (s :: t).get ⟨k' + 1, hk⟩ = t.get ⟨k', hk'⟩ := rfl
      have hsum2 : sumLen ((s :: t).take (k' + 1))
          = s.hierarchy.length + sumLen (t.take k') := by
        rw [List.take_succ_cons, sumLen_cons]
      rw [hget, hsum2]
      rw [show offs + (s.hierarchy.length + sumLen (t.take k') + j)
          = offs + s.hierarchy.length + (sumLen (t.take k') + j) from by omega]
      rw [show idx + (k' + 1) = idx + 1 + k' from by omega]
      rw [show offs + (s.hierarchy.length + sumLen (t.take k')
            + (t.get ⟨k', hk'⟩).hierarchy.length)
          = offs + s.hierarchy.length
            + (sumLen (t.take k') + (t.get ⟨k', hk'⟩).hierarchy.length) from by omega]
      have hrec := ih k' hk' j hj' (mergePhase2Step nS rt (sc, offs, idx) s).1
        (offs + s.hierarchy.length) (idx + 1)
        (fun x hx => hnon x (List.mem_cons_of_mem _ hx))
        (by
          rw [mergePhase2Step_length]
          show offs + s.hierarchy.length + sumLen t ≤ sc.hierarchy.length
          rw [hsum] at hlen
          omega)
      refine hrec.trans ?_
      have hne : hIdx (mergePhase2Step nS rt (sc, offs, idx) s).1
          (offs + s.hierarchy.length + (sumLen (t.take k') + j))
          = hIdx sc (offs + s.hierarchy.length + (sumLen (t.take k') + j)) := by
        show ((mergePhase2Step nS rt (sc, offs, idx) s).1.hierarchy).getD _ {} = _
        rw [mergePhase2Step_sc_hier]
        exact hIdx_modifyH_ne sc offs _ _ (by omega)
      rw [hne]

theorem incrementLevelsFromOne_length (l : List Hierarchy) :
    (incrementLevelsFromOne l).length = l.length := by
  cases l <;> simp [incrementLevelsFromOne]

theorem incrementLevelsFromOne_getD_succ (l : List Hierarchy) (m : Nat)
    (h : m + 1 < l.length) :
    (incrementLevelsFromOne l).getD (m + 1) {}
      = { l.getD (m + 1) {} with level := (l.getD (m + 1) {}).level + 1 } := by
  cases l with
  | nil => simp at h
  | cons a t =>
    have hm : m < t.length := by simpa using h
    show (t.map (fun n => ({ n with level := n.level + 1 } : Hierarchy))).getD m {} = _
    rw [show (a :: t).getD (m + 1) {} = t.getD m {} from rfl]
    rw [List.getD_eq_getElem _ _ (by simpa using hm), List.getElem_map]
    rw [List.getD_eq_getElem _ _ hm]

theorem sumLen_take_le :
    ∀ (ss : List (Scene M)) (k : Nat) (hk : k < ss.length),
      sumLen (ss.take k) + (ss.get ⟨k, hk⟩).hierarchy.length ≤ sumLen ss := by
  intro ss
  induction ss with
  | nil => intro k hk; exact absurd hk (by simp)
  | cons s t ih =>
    intro k hk
    cases k with
    | zero =>
      simp only [List.take_zero, sumLen_nil, Nat.zero_add]
      rw [show (s :: t).get ⟨0, hk⟩ = s from rfl, sumLen_cons]
      omega
    | succ k' =>
      have hk' : k' < t.length := by simpa using hk
      rw [show (s :: t).get ⟨k' + 1, hk⟩ = t.get ⟨k', hk'⟩ from rfl]
      rw [List.take_succ_cons, sumLen_cons, sumLen_cons]
      have := ih k' hk'
      omega

/-- C9: calling `mergeScenes` with an empty list of source scenes produces a
scene with exactly one node (the synthetic root) whose `parent` and
`nextSibling` are `-1` but whose `firstChild` equals `1`, an index outside the
resulting one-node id domain `[0, 1)`. -/
theorem mergeScenes_empty_dangling (M : Type) [One M] [Mul M] (rt : List M)
    (mc : List Nat) (mm mmat : Bool) :
    (mergeScenes ([] : List (Scene M)) rt mc mm mmat).hierarchy.length = 1 ∧
    (hIdx (mergeScenes ([] : List (Scene M)) rt mc mm mmat) 0).parent = -1 ∧
    (hIdx (mergeScenes ([] : List (Scene M)) rt mc mm mmat) 0).nextSibling = -1 ∧
    (hIdx (mergeScenes ([] : List (Scene M)) rt mc mm mmat) 0).firstChild = 1 ∧
    ¬(0 ≤ (hIdx (mergeScenes ([] : List (Scene M)) rt mc mm mmat) 0).firstChild ∧
      (hIdx (mergeScenes ([] : List (Scene M)) rt mc mm mmat) 0).firstChild < 1) :=
  ⟨rfl, rfl, rfl, rfl, by
    intro h
    have h1 : ((1 : Int) < 1) := h.2
    exact absurd h1 (by decide)⟩

/-- Witness: the empty-input `mergeScenes` behavior at `M = Int`. -/
theorem mergeScenes_empty_dangling_witness :
    (mergeScenes ([] : List (Scene Int)) [] [] false false).hierarchy.length = 1 ∧
    (hIdx (mergeScenes ([] : List (Scene Int)) [] [] false false) 0).parent = -1 ∧
    (hIdx (mergeScenes ([] : List (Scene Int)) [] [] false false) 0).nextSibling = -1 ∧
    (hIdx (mergeScenes ([] : List (Scene Int)) [] [] false false) 0).firstChild = 1 ∧
    ¬(0 ≤ (hIdx (mergeScenes ([] : List (Scene Int)) [] [] false false) 0).firstChild ∧
      (hIdx (mergeScenes ([] : List (Scene Int)) [] [] false false) 0).firstChild < 1) :=
  mergeScenes_empty_dangling Int [] [] false false

/-- A one-node scene used to refute one-pass composability of `mergeScenes`. -/
def mergeCexScene : Scene Int :=
  { localTransform := [2], globalTransform := [2], hierarchy := [{ parent := -1 }] }

/-- C4 counterexample: merging `[A, B]` and then merging the result with `C`
gives a 5-node scene, while merging `[A, B, C]` in one pass gives 4 nodes —
every call synthesizes a fresh root, so two-pass merging is not equivalent to
one-pass merging. -/
theorem mergeScenes_two_pass_cex :
    (mergeScenes
        [mergeScenes [mergeCexScene, mergeCexScene] ([] : List Int) [] false false,
         mergeCexScene] ([] : List Int) [] false false).hierarchy.length = 5 ∧
    (mergeScenes [mergeCexScene, mergeCexScene, mergeCexScene]
        ([] : List Int) [] false false).hierarchy.length = 4 := by
  exact ⟨rfl, rfl⟩

/-- The initial output scene of a non-empty `mergeScenes` call (the `NewRoot`
scene, with `materialNames` copied from the first source when materials are
not merged). -/
def mergeInit (M : Type) [One M] (s0 : Scene M) (mmat : Bool) : Scene M :=
  if mmat then newRootScene M
  else { newRootScene M with materialNames := s0.materialNames }

theorem mergeScenes_cons [One M] [Mul M] (s0 : Scene M) (t : List (Scene M))
    (rt : List M) (mc : List Nat) (mm mmat : Bool) :
    mergeScenes (s0 :: t) rt mc mm mmat =
      { ((s0 :: t).foldl (mergePhase2Step (s0 :: t).length rt)
          (((s0 :: t).foldl (mergePhase1Step mm mmat)
            { scene := mergeInit M s0 mmat, offs := 1, meshOffs := 0,
              nameOffs := (mergeInit M s0 mmat).nodeNames.length,
              materialOfs := 0, meshCounts := mc }).scene, 1, 0)).1 with
        hierarchy := incrementLevelsFromOne
          ((s0 :: t).foldl (mergePhase2Step (s0 :: t).length rt)
            (((s0 :: t).foldl (mergePhase1Step mm mmat)
              { scene := mergeInit M s0 mmat, offs := 1, meshOffs := 0,
                nameOffs := (mergeInit M s0 mmat).nodeNames.length,
                materialOfs := 0, meshCounts := mc }).scene, 1, 0)).1.hierarchy } := rfl

theorem mergeInit_hier_len (M : Type) [One M] (s0 : Scene M) (mmat : Bool) :
    (mergeInit M s0 mmat).hierarchy.length = 1 := by
  cases mmat <;> rfl

/-- C4 (amended): within one `mergeScenes` call on non-empty source scenes,
each source scene's hierarchy block is preserved exactly up to index
re-basing, re-parenting of its head and a uniform level increment: node `j`
of source scene `k` lands at index `offsK + j` (where `offsK = 1 +` the sizes
of the earlier scenes) as `shiftNode offsK` of the original record with
`level + 1`; the block head (`j = 0`) additionally gets `parent = 0` and
`nextSibling` pointing at the next block's offset (`-1` for the last scene).
Two-pass merging is NOT equivalent to one-pass merging: each call synthesizes
a fresh root (see the counterexample). -/
theorem mergeScenes_block_shape [One M] [Mul M] (ss : List (Scene M)) (rt : List M)
    (mc : List Nat) (mm mmat : Bool)
    (hne : ss ≠ [])
    (hnon : ∀ s ∈ ss, s.hierarchy.length ≠ 0)
    (k : Nat) (hk : k < ss.length) (j : Nat)
    (hj : j < (ss.get ⟨k, hk⟩).hierarchy.length) :
    (mergeScenes ss rt mc mm mmat).hierarchy.length = 1 + sumLen ss ∧
    hIdx (mergeScenes ss rt mc mm mmat) (1 + (sumLen (ss.take k) + j))
      = (if j = 0 then
          { shiftNode ((1 + sumLen (ss.take k) : Nat) : Int) (hIdx (ss.get ⟨k, hk⟩) j) with
            nextSibling :=
              if k = ss.length - 1 then -1
              else ((1 + (sumLen (ss.take k)
                + (ss.get ⟨k, hk⟩).hierarchy.length) : Nat) : Int),
            parent := 0,
            level := (hIdx (ss.get ⟨k, hk⟩) j).level + 1 }
        else
          { shiftNode ((1 + sumLen (ss.take k) : Nat) : Int) (hIdx (ss.get ⟨k, hk⟩) j) with
            level := (hIdx (ss.get ⟨k, hk⟩) j).level + 1 }) := by
  cases ss with
  | nil => exact absurd rfl hne
  | cons s0 t =>
    rw [mergeScenes_cons]
    set initSt : MergeState M :=
      { scene := mergeInit M s0 mmat, offs := 1, meshOffs := 0,
        nameOffs := (mergeInit M s0 mmat).nodeNames.length,
        materialOfs := 0, meshCounts := mc } with hInit
    set f1 := (s0 :: t).foldl (mergePhase1Step mm mmat) initSt with hf1
    set f2 := (s0 :: t).foldl (mergePhase2Step (s0 :: t).length rt) (f1.scene, 1, 0) with hf2
    have h1 : f1.scene.hierarchy
        = (mergeInit M s0 mmat).hierarchy ++ blocksHier (s0 :: t) 1 := by
      rw [hf1]
      exact phase1_hierarchy mm mmat (s0 :: t) initSt (by cases mmat <;> rfl)
    have hlen1 : f1.scene.hierarchy.length = 1 + sumLen (s0 :: t) := by
      rw [h1, List.length_append, mergeInit_hier_len, blocksHier_length]
    have hlen2 : f2.1.hierarchy.length = 1 + sumLen (s0 :: t) := by
      rw [hf2, phase2_length, hlen1]
    refine ⟨?_, ?_⟩
    · show (incrementLevelsFromOne f2.1.hierarchy).length = 1 + sumLen (s0 :: t)
      rw [incrementLevelsFromOne_length, hlen2]
    · show (incrementLevelsFromOne f2.1.hierarchy).getD
          (1 + (sumLen ((s0 :: t).take k) + j)) {} = _
      have htl := sumLen_take_le (s0 :: t) k hk
      rw [show 1 + (sumLen ((s0 :: t).take k) + j)
          = sumLen ((s0 :: t).take k) + j + 1 from by omega]
      rw [incrementLevelsFromOne_getD_succ _ _ (by rw [hlen2]; omega)]
      have h2' : f2.1.hierarchy.getD (sumLen ((s0 :: t).take k) + j + 1) {}
          = hIdx f2.1 (1 + (sumLen ((s0 :: t).take k) + j)) := by
        show hIdx f2.1 _ = _
        rw [show sumLen ((s0 :: t).take k) + j + 1
            = 1 + (sumLen ((s0 :: t).take k) + j) from by omega]
      rw [h2']
      have hb := phase2_hIdx_block (s0 :: t).length rt (s0 :: t) k hk j hj
        f1.scene 1 0 hnon (by omega)
      rw [hf2, hb]
      have h3 : hIdx f1.scene (1 + (sumLen ((s0 :: t).take k) + j))
          = shiftNode ((1 + sumLen ((s0 :: t).take k) : Nat) : Int)
              (hIdx ((s0 :: t).get ⟨k, hk⟩) j) := by
        show f1.scene.hierarchy.getD (1 + (sumLen ((s0 :: t).take k) + j)) {} = _
        rw [h1]
        rw [show (1 : Nat) + (sumLen ((s0 :: t).take k) + j)
            = (mergeInit M s0 mmat).hierarchy.length + (sumLen ((s0 :: t).take k) + j)
          from by rw [mergeInit_hier_len]]
        rw [getD_append_ge]
        exact blocksHier_getD (s0 :: t) k hk 1 j hj
      rw [h3, Nat.zero_add]
      by_cases hj0 : j = 0
      · rw [if_pos hj0, if_pos hj0]
        rfl
      · rw [if_neg hj0, if_neg hj0]
        rfl

/-- Witness scene A for the merge shape theorem: a root with one child. -/
def mergeWitA : Scene Int :=
  { localTransform := [3, 4], globalTransform := [3, 4],
    hierarchy := [{ parent := -1, firstChild := 1 }, { parent := 0, level := 1 }] }

/-- Witness scene B for the merge shape theorem: a single root node. -/
def mergeWitB : Scene Int :=
  { localTransform := [5], globalTransform := [5], hierarchy := [{ parent := -1 }] }

/-- Witness for `mergeScenes_block_shape`: merging the two-node scene A with
the one-node scene B gives 4 nodes, and B's root lands at index 3 reparented
to the new root with level 1. -/
theorem mergeScenes_block_shape_witness :
    [mergeWitA, mergeWitB] ≠ ([] : List (Scene Int)) ∧
    (∀ s ∈ [mergeWitA, mergeWitB], s.hierarchy.length ≠ 0) ∧
    (mergeScenes [mergeWitA, mergeWitB] ([] : List Int) [] false false).hierarchy.length = 4 ∧
    hIdx (mergeScenes [mergeWitA, mergeWitB] ([] : List Int) [] false false) 3
      = { parent := 0, firstChild := -1, nextSibling := -1, lastSibling := -1, level := 1 } :=
  ⟨List.cons_ne_nil _ _, by decide,
   (mergeScenes_block_shape [mergeWitA, mergeWitB] [] [] false false
      (List.cons_ne_nil _ _) (by decide) 1 (by decide) 0 (by decide)).1,
   (mergeScenes_block_shape [mergeWitA, mergeWitB] [] [] false false
      (List.cons_ne_nil _ _) (by decide) 1 (by decide) 0 (by decide)).2⟩

/-! ### Deleting scene nodes (`deleteSceneNodes`, Chapter 8) -/

/-- `std::lower_bound` (libstdc++ halving scheme) on a `Nat` list, with the
window length as fuel (it strictly decreases). Returns the final `first`. -/
def lowerBoundAux (v : List Nat) (val : Nat) : Nat → Nat → Nat → Nat
  | 0, first, _ => first
  | fuel + 1, first, len =>
    if len = 0 then first
    else if v.getD (first + len / 2) 0 < val then
      lowerBoundAux v val fuel (first + len / 2 + 1) (len - len / 2 - 1)
    else
      lowerBoundAux v val fuel first (len / 2)

def lowerBound (v : List Nat) (val : Nat) : Nat :=
  lowerBoundAux v val v.length 0 v.length

/-- `std::binary_search`: `it = lower_bound(v, val); it != end && !(val < *it)`.
Only a correct membership test when `v` is sorted. -/
def binSearch (v : List Nat) (val : Nat) : Bool :=
  decide (lowerBound v val < v.length) && ! decide (val < v.getD (lowerBound v val) 0)

/-- `addUniqueIdx`: push `index` unless `std::binary_search` claims it is
already present. -/
def addUniqueIdx (v : List Nat) (index : Nat) : List Nat :=
  if binSearch v index then v else v ++ [index]

/-- The child-chain walk of `collectNodesToDelete`
(`for (n = firstChild; n != -1; n = hierarchy[n].nextSibling)`), with fuel:
add `n`, descend into `n`'s children, then continue with `n`'s next sibling. -/
def collectChain (s : Scene M) : Nat → Int → List Nat → List Nat
  | 0, _, acc => acc
  | fuel + 1, n, acc =>
    if n = -1 then acc
    else
      let acc1 := addUniqueIdx acc n.toNat
      let acc2 := collectChain s fuel (hIdx s n.toNat).firstChild acc1
      collectChain s fuel (hIdx s n.toNat).nextSibling acc2

/-- `collectNodesToDelete`: walk the children of `node`, accumulating into
`nodes` (the node itself is not added). -/
def collectNodesToDelete (s : Scene M) (node : Nat) (nodes : List Nat) (fuel : Nat) :
    List Nat :=
  collectChain s fuel (hIdx s node).firstChild nodes

/-- `eraseSelected` keeps `v[i]` exactly when `std::binary_search(selection, i)`
fails; `std::stable_partition` + `resize` preserve the kept items' order. -/
def eraseSelectedAux {α : Type _} (selection : List Nat) : Nat → List α → List α
  | _, [] => []
  | i, x :: rest =>
    if binSearch selection i then eraseSelectedAux selection (i + 1) rest
    else x :: eraseSelectedAux selection (i + 1) rest

def eraseSelected {α : Type _} (v : List α) (selection : List Nat) : List α :=
  eraseSelectedAux selection 0 v

/-- `findLastNonDeletedItem`: follow the deleted node's former sibling chain
until a surviving node (or `-1`) is found; fuel bounds the chain length. -/
def findLastNonDeletedItem (s : Scene M) (newIndices : List Int) : Nat → Int → Int
  | 0, _ => -1
  | fuel + 1, node =>
    if node = -1 then -1
    else if newIndices.getD node.toNat (-1) = -1 then
      findLastNonDeletedItem s newIndices fuel (hIdx s node.toNat).nextSibling
    else newIndices.getD node.toNat (-1)

/-- The `nodeMover` lambda: remap `parent` through `newIndices`, remap the
three sibling-ish references through `findLastNonDeletedItem`. The designated
initializer omits `.level`, so it resets to the default `0`. -/
def nodeMover (s : Scene M) (newIndices : List Int) (h : Hierarchy) : Hierarchy :=
  { parent := if h.parent ≠ -1 then newIndices.getD h.parent.toNat (-1) else -1,
    firstChild := findLastNonDeletedItem s newIndices (s.hierarchy.length + 1) h.firstChild,
    nextSibling := findLastNonDeletedItem s newIndices (s.hierarchy.length + 1) h.nextSibling,
    lastSibling := findLastNonDeletedItem s newIndices (s.hierarchy.length + 1) h.lastSibling,
    level := 0 }

/-- `shiftMapIndices`: rebuild the map keeping only keys whose `newIndices`
entry is not `-1`, remapping the key. -/
def shiftMapIndices (items : List (Nat × Nat)) (newIndices : List Int) :
    List (Nat × Nat) :=
  items.foldl
    (fun acc m =>
      let newIndex := newIndices.getD m.1 (-1)
      if newIndex ≠ -1 then mapInsert acc newIndex.toNat m.2 else acc) []

/-- The `newIndices` table: `oldSize` entries of `-1`, then
`newIndices[nodes[i]] = i` for each surviving node. -/
def buildNewIndices (nodes : List Nat) (oldSize : Nat) : List Int :=
  (List.range nodes.length).foldl
    (fun acc i => acc.set (nodes.getD i 0) (i : Int)) (List.replicate oldSize (-1))

/-- `deleteSceneNodes`: expand the id list with all descendants, compact the
index list, build the old-to-new map, remap every hierarchy record, erase the
selected hierarchy/transform entries and rebuild the three maps. The C++
range-for extends `indicesToDelete` while iterating it; it is modelled as a
fold over the initial snapshot (descendants of descendants are reached by the
recursion anyway). The in-place `std::transform` is modelled as a map over
the original hierarchy: with forward-pointing chains the lambda only reads
entries not yet overwritten. -/
def deleteSceneNodes (s : Scene M) (nodesToDelete : List Nat) : Scene M :=
  let indicesToDelete := nodesToDelete.foldl
    (fun acc i => collectNodesToDelete s i acc (s.hierarchy.length + 1)) nodesToDelete
  let oldSize := s.hierarchy.length
  let nodes := eraseSelected (List.range oldSize) indicesToDelete
  let newIndices := buildNewIndices nodes oldSize
  let movedHier := s.hierarchy.map (nodeMover s newIndices)
  { s with
    hierarchy := eraseSelected movedHier indicesToDelete,
    localTransform := eraseSelected s.localTransform indicesToDelete,
    globalTransform := eraseSelected s.globalTransform indicesToDelete,
    meshForNode := shiftMapIndices s.meshForNode newIndices,
    materialForNode := shiftMapIndices s.materialForNode newIndices,
    nameForNode := shiftMapIndices s.nameForNode newIndices }

/-- A valid 5-node scene: root 0, its child 1, 1's children 2 (with child 3)
and 4. Deleting `[1, 4]` exercises the unsorted accumulated delete list. -/
def deleteCexScene : Scene Int :=
  { localTransform := [10, 11, 12, 13, 14],
    globalTransform := [10, 11, 12, 13, 14],
    hierarchy :=
      [{ parent := -1, firstChild := 1, level := 0 },
       { parent := 0, firstChild := 2, level := 1 },
       { parent := 1, firstChild := 3, nextSibling := 4, level := 2 },
       { parent := 2, level := 3 },
       { parent := 1, level := 2 }] }

/-- C2 counterexample: node 2 is a child of the deleted node 1, yet
`deleteSceneNodes` keeps it — the accumulated delete list `[1, 4, 2, 3, 4]`
is unsorted, so the `std::binary_search` membership test of `eraseSelected`
misses 2, and the compacted scene has 2 nodes (transforms `[10, 12]`) where
exactly-listed-plus-descendants removal would leave only the root. -/
theorem deleteSceneNodes_descendant_survives_cex :
    ValidScene deleteCexScene ∧
    (hIdx deleteCexScene 1).firstChild = 2 ∧
    (deleteSceneNodes deleteCexScene [1, 4]).hierarchy.length = 2 ∧
    (deleteSceneNodes deleteCexScene [1, 4]).localTransform = [10, 12] := by decide

/-- C10 counterexample: the input ids `[1, 4]` are sorted ascending and the
scene is valid (every descendant's index exceeds its ancestor's), yet the
collected delete-set contains 4 twice: `addUniqueIdx` runs its binary search
over the accumulated list `[1, 4, 2, 3]`, which is no longer sorted. -/
theorem collectNodes_duplicate_cex :
    List.Pairwise (fun a b => a ≤ b) [1, 4] ∧ ValidScene deleteCexScene ∧
    ([1, 4].foldl
        (fun acc i => collectNodesToDelete deleteCexScene i acc
          (deleteCexScene.hierarchy.length + 1)) [1, 4]).count 4 = 2 := by decide

theorem sorted_getD_le (v : List Nat) (hs : List.Pairwise (fun a b => a ≤ b) v)
    (i j : Nat) (hij : i ≤ j) (hj : j < v.length) :
    v.getD i 0 ≤ v.getD j 0 := by
  rcases Nat.lt_or_eq_of_le hij with h | h
  · rw [List.getD_eq_getElem _ _ (by omega), List.getD_eq_getElem _ _ hj]
    exact List.pairwise_iff_get.mp hs ⟨i, by omega⟩ ⟨j, hj⟩ h
  · subst h
    rfl

theorem lowerBoundAux_spec (v : List Nat) (val : Nat)
    (hs : List.Pairwise (fun a b => a ≤ b) v) :
    ∀ (fuel first len : Nat), first + len ≤ v.length → len ≤ fuel →
      (∀ m, m < first → v.getD m 0 < val) →
      (∀ m, first + len ≤ m → m < v.length → val ≤ v.getD m 0) →
      first ≤ lowerBoundAux v val fuel first len ∧
      lowerBoundAux v val fuel first len ≤ first + len ∧
      (∀ m, m < lowerBoundAux v val fuel first len → v.getD m 0 < val) ∧
      (∀ m, lowerBoundAux v val fuel first len ≤ m → m < v.length →
        val ≤ v.getD m 0) := by
  intro fuel
  induction fuel with
  | zero =>
    intro first len hb hf hpre hsuf
    have hlen : len = 0 := by omega
    subst hlen
    have hr : lowerBoundAux v val 0 first 0 = first := rfl
    rw [hr]
    exact ⟨Nat.le_refl _, by omega, hpre, fun m hm hml => hsuf m (by omega) hml⟩
  | succ fuel ih =>
    intro first len hb hf hpre hsuf
    by_cases hlen : len = 0
    · subst hlen
      rw [lowerBoundAux, if_pos rfl]
      exact ⟨Nat.le_refl _, by omega, hpre, fun m hm hml => hsuf m (by omega) hml⟩
    · have hhalf : len / 2 < len := Nat.div_lt_self (by omega) (by omega)
      have hmid : first + len / 2 < v.length := by omega
      by_cases hc : v.getD (first + len / 2) 0 < val
      · rw [lowerBoundAux, if_neg hlen, if_pos hc]
        have hpre' : ∀ m, m < first + len / 2 + 1 → v.getD m 0 < val := by
          intro m hm
          by_cases hmf : m < first
          · exact hpre m hmf
          · exact Nat.lt_of_le_of_lt
              (sorted_getD_le v hs m (first + len / 2) (by omega) hmid) hc
        have hsuf' : ∀ m, (first + len / 2 + 1) + (len - len / 2 - 1) ≤ m →
            m < v.length → val ≤ v.getD m 0 := by
          intro m hm hml
          exact hsuf m (by omega) hml
        obtain ⟨h1, h2, h3, h4⟩ := ih (first + len / 2 + 1) (len - len / 2 - 1)
          (by omega) (by omega) hpre' hsuf'
        exact ⟨by omega, by omega, h3, h4⟩
      · rw [lowerBoundAux, if_neg hlen, if_neg hc]
        have hval : val ≤ v.getD (first + len / 2) 0 := Nat.le_of_not_lt hc
        have hsuf' : ∀ m, first + len / 2 ≤ m → m < v.length → val ≤ v.getD m 0 := by
          intro m hm hml
          exact Nat.le_trans hval (sorted_getD_le v hs (first + len / 2) m hm hml)
        obtain ⟨h1, h2, h3, h4⟩ := ih first (len / 2)
          (by omega) (by omega) hpre hsuf'
        exact ⟨h1, by omega, h3, h4⟩

theorem lowerBound_spec (v : List Nat) (val : Nat)
    (hs : List.Pairwise (fun a b => a ≤ b) v) :
    lowerBound v val ≤ v.length ∧
    (∀ m, m < lowerBound v val → v.getD m 0 < val) ∧
    (∀ m, lowerBound v val ≤ m → m < v.length → val ≤ v.getD m 0) := by
  obtain ⟨h1, h2, h3, h4⟩ := lowerBoundAux_spec v val hs v.length 0 v.length
    (by omega) (by omega) (by omega) (by omega)
  exact ⟨by simpa using h2, h3, h4⟩

theorem binSearch_sorted (v : List Nat) (x : Nat)
    (hs : List.Pairwise (fun a b => a ≤ b) v) :
    binSearch v x = true ↔ x ∈ v := by
  obtain ⟨h1, h2, h3⟩ := lowerBound_spec v x hs
  have hbool : binSearch v x = true ↔
      (lowerBound v x < v.length ∧ ¬(x < v.getD (lowerBound v x) 0)) := by
    unfold binSearch
    simp
  rw [hbool]
  constructor
  · rintro ⟨hlt, hle⟩
    have hx1 : v.getD (lowerBound v x) 0 ≤ x := Nat.le_of_not_lt hle
    have hx2 : x ≤ v.getD (lowerBound v x) 0 := h3 _ (Nat.le_refl _) hlt
    have heq : v.getD (lowerBound v x) 0 = x := by omega
    rw [List.getD_eq_getElem _ _ hlt] at heq
    exact heq ▸ List.getElem_mem hlt
  · intro hx
    obtain ⟨⟨m, hm⟩, hvm⟩ := List.mem_iff_get.mp hx
    have hgm : v.getD m 0 = x := by
      rw [List.getD_eq_getElem _ _ hm]
      exact hvm
    by_cases hcase : m < lowerBound v x
    · exact absurd (hgm ▸ h2 m hcase) (by omega)
    · refine ⟨by omega, ?_⟩
      have := sorted_getD_le v hs (lowerBound v x) m (by omega) hm
      omega

/-- C10 (amended): the duplicate check of `addUniqueIdx` is correct exactly
when the ACCUMULATED list it searches is sorted: on a sorted, duplicate-free
list `v`, `addUniqueIdx v x` equals `v` when `x ∈ v` and `v ++ [x]` otherwise,
and stays duplicate-free. Sortedness of the input id list of
`deleteSceneNodes` is NOT a sufficient precondition: the accumulated list
passed to the binary search loses sortedness as descendants are appended (see
the duplicate counterexample). -/
theorem addUniqueIdx_spec (v : List Nat) (x : Nat)
    (hv : List.Pairwise (fun a b => a ≤ b) v) (hnd : v.Nodup) :
    addUniqueIdx v x = (if x ∈ v then v else v ++ [x]) ∧
    (addUniqueIdx v x).Nodup := by
  have hb := binSearch_sorted v x hv
  by_cases hx : x ∈ v
  · have hbt : binSearch v x = true := hb.mpr hx
    unfold addUniqueIdx
    rw [if_pos hbt, if_pos hx]
    exact ⟨rfl, hnd⟩
  · have hbf : binSearch v x = false := by
      cases h : binSearch v x
      · rfl
      · exact absurd (hb.mp h) hx
    unfold addUniqueIdx
    rw [if_neg (by rw [hbf]; exact Bool.false_ne_true), if_neg hx]
    refine ⟨rfl, ?_⟩
    simp [List.nodup_append, hnd, hx]

/-- Witness for `addUniqueIdx_spec` on the sorted list `[1, 3]` and `x = 2`. -/
theorem addUniqueIdx_spec_witness :
    List.Pairwise (fun a b => a ≤ b) [1, 3] ∧ ([1, 3] : List Nat).Nodup ∧
    (addUniqueIdx [1, 3] 2 = (if 2 ∈ [1, 3] then [1, 3] else [1, 3] ++ [2]) ∧
      (addUniqueIdx [1, 3] 2).Nodup) :=
  ⟨by decide, by decide, addUniqueIdx_spec [1, 3] 2 (by decide) (by decide)⟩

theorem binSearch_eq_decide (ids : List Nat)
    (hv : List.Pairwise (fun a b => a ≤ b) ids) (i : Nat) :
    binSearch ids i = decide (i ∈ ids) := by
  by_cases h : i ∈ ids
  · rw [(binSearch_sorted ids i hv).mpr h]
    exact (decide_eq_true h).symm
  · have hbf : binSearch ids i = false := by
      cases hb2 : binSearch ids i
      · rfl
      · exact absurd ((binSearch_sorted ids i hv).mp hb2) h
    rw [hbf]
    exact (decide_eq_false h).symm

/-- The spec's description of the partition: keep exactly the entries whose
position is not in the id list, in their original order. -/
def keepFilter {α : Type _} (ids : List Nat) (v : List α) : List α :=
  (v.enum.filter (fun p => ! decide (p.1 ∈ ids))).map Prod.snd

theorem eraseSelectedAux_eq_filter {α : Type _} (ids : List Nat)
    (hv : List.Pairwise (fun a b => a ≤ b) ids) :
    ∀ (v : List α) (i : Nat),
      eraseSelectedAux ids i v
        = ((List.enumFrom i v).filter (fun p => ! decide (p.1 ∈ ids))).map Prod.snd := by
  intro v
  induction v with
  | nil => intro i; rfl
  | cons x rest ih =>
    intro i
    rw [eraseSelectedAux]
    rw [binSearch_eq_decide ids hv i]
    rw [List.enumFrom_cons]
    by_cases h : i ∈ ids
    · rw [if_pos (decide_eq_true h)]
      rw [ih (i + 1)]
      simp [List.filter_cons, h]
    · rw [if_neg (by rw [decide_eq_false h]; exact Bool.false_ne_true)]
      rw [ih (i + 1)]
      simp [List.filter_cons, h]

theorem eraseSelected_eq_keepFilter {α : Type _} (ids : List Nat)
    (hv : List.Pairwise (fun a b => a ≤ b) ids) (v : List α) :
    eraseSelected v ids = keepFilter ids v := by
  unfold eraseSelected keepFilter
  rw [eraseSelectedAux_eq_filter ids hv v 0]
  rfl

theorem collectChain_stop (s : Scene M) (fuel : Nat) (acc : List Nat) :
    collectChain s (fuel + 1) (-1) acc = acc := by
  rw [collectChain]
  rw [if_pos rfl]

theorem collectAll_leaves (s : Scene M) :
    ∀ (ids acc : List Nat), (∀ i ∈ ids, (hIdx s i).firstChild = -1) →
      ids.foldl (fun acc i => collectNodesToDelete s i acc (s.hierarchy.length + 1)) acc
        = acc := by
  intro ids
  induction ids with
  | nil => intro acc h; rfl
  | cons a t ih =>
    intro acc h
    rw [List.foldl_cons]
    have hstep : collectNodesToDelete s a acc (s.hierarchy.length + 1) = acc := by
      unfold collectNodesToDelete
      rw [h a (List.mem_cons_self _ _)]
      exact collectChain_stop s _ acc
    rw [hstep]
    exact ih acc (fun i hi => h i (List.mem_cons_of_mem _ hi))

/-- A root with three childless children `s1 = 1`, `s2 = 2`, `s3 = 3` — the
spec's middle-sibling deletion scenario. -/
def sibScene : Scene Int :=
  { localTransform := [20, 21, 22, 23],
    globalTransform := [20, 21, 22, 23],
    hierarchy :=
      [{ parent := -1, firstChild := 1, level := 0 },
       { parent := 0, nextSibling := 2, lastSibling := 3, level := 1 },
       { parent := 0, nextSibling := 3, lastSibling := 3, level := 1 },
       { parent := 0, lastSibling := 3, level := 1 }] }

/-- C2 (amended): when the ids to delete are sorted and childless, the delete
set is exactly the id list and `deleteSceneNodes` erases exactly those
positions from every array, keeping the survivors in their original relative
order (`keepFilter`); the hierarchy entries are additionally remapped through
`nodeMover` (sibling walks through `findLastNonDeletedItem`). In the spec's
scenario — deleting the middle of three siblings `[s1, s2, s3]` — the
compacted scene has 3 nodes, keeps the transforms of `s1` and `s3`, and
`s1.nextSibling` is the compacted index of `s3`. In general the routine is
NOT correct (see the descendant-survives counterexample): the accumulated
delete list becomes unsorted, defeating the binary searches. -/
theorem deleteSceneNodes_leaves (s : Scene M) (ids : List Nat)
    (hv : List.Pairwise (fun a b => a ≤ b) ids)
    (hleaf : ∀ i ∈ ids, (hIdx s i).firstChild = -1) :
    (deleteSceneNodes s ids).localTransform = keepFilter ids s.localTransform ∧
    (deleteSceneNodes s ids).globalTransform = keepFilter ids s.globalTransform ∧
    (deleteSceneNodes s ids).hierarchy
      = keepFilter ids (s.hierarchy.map (nodeMover s
          (buildNewIndices (keepFilter ids (List.range s.hierarchy.length))
            s.hierarchy.length))) ∧
    ((deleteSceneNodes sibScene [2]).localTransform = [20, 21, 23] ∧
     (deleteSceneNodes sibScene [2]).hierarchy.length = 3 ∧
     (hIdx (deleteSceneNodes sibScene [2]) 0).firstChild = 1 ∧
     (hIdx (deleteSceneNodes sibScene [2]) 1).parent = 0 ∧
     (hIdx (deleteSceneNodes sibScene [2]) 1).nextSibling = 2 ∧
     (hIdx (deleteSceneNodes sibScene [2]) 2).parent = 0 ∧
     (hIdx (deleteSceneNodes sibScene [2]) 2).nextSibling = -1) := by
  have hcoll : ids.foldl
      (fun acc i => collectNodesToDelete s i acc (s.hierarchy.length + 1)) ids = ids :=
    collectAll_leaves s ids ids hleaf
  refine ⟨?_, ?_, ?_, by decide⟩
  · show eraseSelected s.localTransform
        (ids.foldl (fun acc i => collectNodesToDelete s i acc (s.hierarchy.length + 1)) ids)
      = keepFilter ids s.localTransform
    rw [hcoll]
    exact eraseSelected_eq_keepFilter ids hv s.localTransform
  · show eraseSelected s.globalTransform
        (ids.foldl (fun acc i => collectNodesToDelete s i acc (s.hierarchy.length + 1)) ids)
      = keepFilter ids s.globalTransform
    rw [hcoll]
    exact eraseSelected_eq_keepFilter ids hv s.globalTransform
  · show eraseSelected
        (s.hierarchy.map (nodeMover s (buildNewIndices
          (eraseSelected (List.range s.hierarchy.length)
            (ids.foldl (fun acc i => collectNodesToDelete s i acc (s.hierarchy.length + 1)) ids))
          s.hierarchy.length)))
        (ids.foldl (fun acc i => collectNodesToDelete s i acc (s.hierarchy.length + 1)) ids)
      = _
    rw [hcoll]
    rw [eraseSelected_eq_keepFilter ids hv (List.range s.hierarchy.length)]
    exact eraseSelected_eq_keepFilter ids hv _

/-- Witness for `deleteSceneNodes_leaves`: deleting the middle sibling of
`sibScene` erases exactly position 2 from the transforms. -/
theorem deleteSceneNodes_leaves_witness :
    List.Pairwise (fun a b => a ≤ b) [2] ∧
    (∀ i ∈ [2], (hIdx sibScene i).firstChild = -1) ∧
    (deleteSceneNodes sibScene [2]).localTransform = keepFilter [2] sibScene.localTransform :=
  ⟨by decide, by decide,
   (deleteSceneNodes_leaves sibScene [2] (by decide) (by decide)).1⟩

end VkScene
